import Mathlib

set_option maxHeartbeats 1000000

-- Batteries marks rational arithmetic irreducible for elaborator performance;
-- the concrete witness evaluations below need it to reduce under decide.
set_option allowUnsafeReducibility true in
attribute [semireducible] Rat.add Rat.mul Rat.inv Rat.sub Rat.div

/-!
Verification of the op-mtr probing engine (Go package mtr, file mtr.go with
the OPMTR type and its three run operations RunMTRWithNoRetryPing, RunMTR and
RunMTRWithCocurrentPing).

The embedding is shallow.  Go float64 RTT and counter arithmetic is modelled
over the rationals, durations are rationals counted in seconds, and the raw
ICMP transport (the Tracer of the go-traceroute library) is modelled as an
environment: the stream of trace replies, the outcome of every ping call, and,
for the concurrent variant, the racing view of the hop table that the
duplicate check of Branch B reads.  The functions net.ParseIP and IP.String
of the Go standard library, which the source calls on the destination
argument, are embedded from the Go library sources (netip.ParseAddr and
net.IP.String).
-/


/-- A traceroute or ping reply as delivered by the transport (the fields of
traceroute.Reply that the source reads).  Hops is the TTL of the reply, ip is
the responder address in the canonical form produced by IP.String, and rtt is
the round trip time in milliseconds, the value of RTT.Seconds times 1000. -/
structure Reply where
  Hops : ℕ
  ip : String
  rtt : ℚ
deriving DecidableEq

/-- One hop record, mirroring type MTRHup of the Go source. -/
structure MTRHup where
  Count : ℕ
  Host : String
  Loss : ℚ
  LossPoint : ℕ
  Snt : ℚ
  Last : ℚ
  Avg : ℚ
  Best : ℚ
  Wrst : ℚ
deriving DecidableEq

/-- The report, mirroring type MTRReport of the Go source. -/
structure MTRReport where
  Time : ℤ
  Src : String
  Dst : String
  Count : ℕ
  Hups : List MTRHup
deriving DecidableEq

/-! ## The Go standard library IP parser and printer

The run operations guard on net.ParseIP(dst) == nil and compare responder
addresses against dstIP.String().  Both functions are embedded here from the
Go library sources: ParseAddr and its two sub parsers from net/netip, the
16 byte As16 representation that net.ParseIP returns, and IP.String with its
IPv4 mapped detection and longest zero run compression. -/


/-- Decimal digit test of the Go parsers. -/
def isDigitCh (c : Char) : Bool := '0' ≤ c && c ≤ '9'

/-- Hexadecimal digit test of parseIPv6. -/
def isHexCh (c : Char) : Bool :=
  ('0' ≤ c && c ≤ '9') || ('a' ≤ c && c ≤ 'f') || ('A' ≤ c && c ≤ 'F')

/-- Value of a hexadecimal digit, as computed by parseIPv6. -/
def hexVal (c : Char) : ℕ :=
  if '0' ≤ c && c ≤ '9' then c.toNat - 48
  else if 'a' ≤ c && c ≤ 'f' then c.toNat - 87
  else if 'A' ≤ c && c ≤ 'F' then c.toNat - 55
  else 0

/-- netip parseIPv4Fields: parse n dotted decimal fields, each of one or more
digits, value at most 255, no leading zero, with the whole input consumed
after the last field.  Returns the octet list. -/
def parseV4Octets : ℕ → List Char → Option (List ℕ)
  | 0, cs => if cs.isEmpty then some [] else none
  | n + 1, cs =>
    let ds := cs.takeWhile isDigitCh
    let rest := cs.dropWhile isDigitCh
    if ds.isEmpty then none
    else
      let v := ds.foldl (fun a c => a * 10 + (c.toNat - 48)) 0
      if 255 < v then none
      else if 1 < ds.length && ds.head? == some '0' then none
      else if n = 0 then
        if rest.isEmpty then some [v] else none
      else
        match rest with
        | c :: rest2 => if c = '.' then (parseV4Octets n rest2).map (v :: ·) else none
        | [] => none

/-- netip parseIPv4 on a string: four dotted decimal octets. -/
def parseIPv4 (s : String) : Option (List ℕ) := parseV4Octets 4 s.data

/-- The main loop of netip parseIPv6.  The fuel argument counts the remaining
16 bit groups (the Go loop runs while i is less than 16 and advances i by two
bytes per iteration, so at most eight groups).  Arguments: fuel, remaining
input, accumulated bytes, position of the ellipsis if one was seen.  Returns
the accumulated bytes and ellipsis position; the input must be used up. -/
def parseIPv6Loop : ℕ → List Char → List ℕ → Option ℕ → Option (List ℕ × Option ℕ)
  | 0, s, acc, ell => if s.isEmpty then some (acc, ell) else none
  | fuel + 1, s, acc, ell =>
    let ds := s.takeWhile isHexCh
    let rest := s.dropWhile isHexCh
    if ds.isEmpty then none
    else if 4 < ds.length then none
    else
      let g := ds.foldl (fun a c => a * 16 + hexVal c) 0
      if rest.head? == some '.' then
        if acc.length ≠ 12 && ell.isNone then none
        else if 16 < acc.length + 4 then none
        else
          match parseV4Octets 4 s with
          | none => none
          | some o4 => some (acc ++ o4, ell)
      else
        let acc2 := acc ++ [g / 256, g % 256]
        match rest with
        | [] => some (acc2, ell)
        | c :: s2 =>
          if c ≠ ':' then none
          else if s2.isEmpty then none
          else
            match s2 with
            | ':' :: s3 =>
              match ell with
              | some _ => none
              | none =>
                if s3.isEmpty then some (acc2, some acc2.length)
                else parseIPv6Loop fuel s3 acc2 (some acc2.length)
            | _ => parseIPv6Loop fuel s2 acc2 ell

/-- Ellipsis expansion at the end of netip parseIPv6: with 16 bytes parsed an
ellipsis is an error, with fewer an ellipsis is required and the missing zero
bytes are inserted at its position. -/
def v6Expand (acc : List ℕ) (ell : Option ℕ) : Option (List ℕ) :=
  if acc.length = 16 then
    match ell with
    | none => some acc
    | some _ => none
  else
    match ell with
    | none => none
    | some e => some (acc.take e ++ List.replicate (16 - acc.length) 0 ++ acc.drop e)

/-- netip parseIPv6 without the zone: optional leading double colon (the bare
double colon is the unspecified address), then the group loop, then the
ellipsis expansion. -/
def parseIPv6Core (s0 : List Char) : Option (List ℕ) :=
  match s0 with
  | ':' :: ':' :: s1 =>
    if s1.isEmpty then some (List.replicate 16 0)
    else
      match parseIPv6Loop 8 s1 [] (some 0) with
      | none => none
      | some (acc, ell) => v6Expand acc ell
  | _ =>
    match parseIPv6Loop 8 s0 [] none with
    | none => none
    | some (acc, ell) => v6Expand acc ell

/-- parseIPv6 as reachable from net.ParseIP: netip accepts a nonempty zone
after a percent sign but net.ParseIP rejects any address with a zone, and an
empty zone is a parse error, so at the net.ParseIP level any input containing
a percent sign yields nil. -/
def parseIPv6Net (s0 : List Char) : Option (List ℕ) :=
  if s0.contains '%' then none else parseIPv6Core s0

/-- The 16 byte As16 form of an IPv4 address, as stored by net.ParseIP. -/
def ipv4As16 (o : List ℕ) : List ℕ := List.replicate 10 0 ++ [255, 255] ++ o

/-- net.ParseIP: dispatch on the first dot, colon or percent character, as in
netip.ParseAddr, returning the 16 byte representation or none. -/
def parseIP (s : String) : Option (List ℕ) :=
  match s.data.find? (fun c => c = '.' || c = ':' || c = '%') with
  | some c =>
    if c = '.' then (parseIPv4 s).map ipv4As16
    else if c = ':' then parseIPv6Net s.data
    else none
  | none => none

/-- Decimal digit character. -/
def decDigitCh (n : ℕ) : Char := Char.ofNat (48 + n % 10)

/-- Decimal digits of n, most significant first (fuel bounded, empty at 0). -/
def decChars : ℕ → ℕ → List Char
  | 0, _ => []
  | _, 0 => []
  | f + 1, n => decChars f (n / 10) ++ [decDigitCh n]

/-- Decimal rendering of a byte value, as Go uitoa. -/
def decStr (n : ℕ) : String := if n = 0 then "0" else String.mk (decChars 4 n)

/-- Hexadecimal digit character, lowercase as in Go appendHex. -/
def hexDigitCh (n : ℕ) : Char :=
  if n % 16 < 10 then Char.ofNat (48 + n % 16) else Char.ofNat (87 + n % 16)

/-- Hexadecimal digits of n, most significant first (fuel bounded). -/
def hexChars : ℕ → ℕ → List Char
  | 0, _ => []
  | _, 0 => []
  | f + 1, n => hexChars f (n / 16) ++ [hexDigitCh n]

/-- Hexadecimal rendering of a 16 bit group, as Go appendHex. -/
def hexStr (n : ℕ) : String := if n = 0 then "0" else String.mk (hexChars 8 n)

/-- Byte i of a byte list, zero past the end. -/
def byteAt (b : List ℕ) (i : ℕ) : ℕ := (b.get? i).getD 0

/-- The eight 16 bit groups of a 16 byte address. -/
def groupsOf (b : List ℕ) : List ℕ :=
  (List.range 8).map (fun k => byteAt b (2 * k) * 256 + byteAt b (2 * k + 1))

/-- Length of the zero prefix of a group list. -/
def zrun : List ℕ → ℕ
  | [] => 0
  | g :: t => if g = 0 then zrun t + 1 else 0

/-- The scan of IP.String for the first longest run of zero groups: walk the
start positions keeping the first strictly longest run. -/
def bestRunFrom (gs : List ℕ) : ℕ → ℕ → Option (ℕ × ℕ) → Option (ℕ × ℕ)
  | 0, _, best => best
  | fuel + 1, i, best =>
    if 8 ≤ i then best
    else
      let l := zrun (gs.drop i)
      let cur := match best with | none => 0 | some (_, bl) => bl
      if 0 < l ∧ cur < l then bestRunFrom gs fuel (i + l) (some (i, l))
      else bestRunFrom gs fuel (i + 1) best

/-- The chosen zero run of IP.String: a run of a single group is not
compressed (the Go test e1 minus e0 at most 2 bytes clears it). -/
def bestZeroRun (gs : List ℕ) : Option (ℕ × ℕ) :=
  match bestRunFrom gs 16 0 none with
  | some (i, l) => if 2 ≤ l then some (i, l) else none
  | none => none

/-- The rendering loop of IP.String for IPv6: at the chosen run emit a double
colon and jump past the run, otherwise separate groups with single colons.
The no run case passes 9 for e0, which no group index reaches. -/
def v6Render (gs : List ℕ) (e0 l : ℕ) : ℕ → ℕ → String
  | 0, _ => ""
  | fuel + 1, i =>
    if 8 ≤ i then ""
    else if i = e0 then
      "::" ++
        (if 8 ≤ e0 + l then ""
         else hexStr (gs.getD (e0 + l) 0) ++ v6Render gs e0 l fuel (e0 + l + 1))
    else
      (if i = 0 then "" else ":") ++ hexStr (gs.getD i 0) ++ v6Render gs e0 l fuel (i + 1)

/-- IPv6 rendering of IP.String. -/
def v6String (gs : List ℕ) : String :=
  match bestZeroRun gs with
  | some (e0, l) => v6Render gs e0 l 16 0
  | none => v6Render gs 9 0 16 0

/-- net.IP.String on a 16 byte address: dotted quad when To4 succeeds (the
first ten bytes zero and bytes ten and eleven 255), compressed hexadecimal
groups otherwise. -/
def ipString (b : List ℕ) : String :=
  if b.take 10 == List.replicate 10 0 && byteAt b 10 == 255 && byteAt b 11 == 255 then
    decStr (byteAt b 12) ++ "." ++ decStr (byteAt b 13) ++ "." ++
      decStr (byteAt b 14) ++ "." ++ decStr (byteAt b 15)
  else v6String (groupsOf b)

/-! ## Discovery phase

All three run operations share this code verbatim (the trace first loop):
walk TTL 1 up to MaxHops, create a known record from the collected route
reply or an unknown record with host three question marks, and stop on the
destination IP, the consecutive unknown cutoff, or the raw destination
string, checked in this order. -/


/-- The routes map built by the Trace callback: the first reply per TTL is
kept (a later reply for the same TTL only logs a conflict). -/
def routesOf (rs : List Reply) (i : ℕ) : Option Reply :=
  rs.find? (fun r => r.Hops == i)

/-- The walk of the trace first loop.  Arguments: the routes map, the raw
destination string, the canonical destination string dstIP.String, MaxUnknowns,
then the running count of consecutive unknowns, the remaining number of TTLs
(MaxHops at the start) and the current TTL i. -/
def traceFrom (routes : ℕ → Option Reply) (dst dstCanon : String) (mu : ℕ) :
    ℕ → ℕ → ℕ → List MTRHup
  | _, 0, _ => []
  | uc, rem + 1, i =>
    match routes i with
    | some r =>
      let h0 : MTRHup := ⟨i, r.ip, 0, 0, 1, r.rtt, r.rtt, r.rtt, r.rtt⟩
      if r.ip = dstCanon then [h0]
      else
        let h : MTRHup := { h0 with Loss := (h0.LossPoint : ℚ) / h0.Snt }
        if mu ≤ 0 then [h]
        else if h.Host = dst then [h]
        else h :: traceFrom routes dst dstCanon mu 0 rem (i + 1)
    | none =>
      let h0 : MTRHup := ⟨i, "???", 0, 1, 1, 0, 0, 0, 0⟩
      let h : MTRHup := { h0 with Loss := (h0.LossPoint : ℚ) / h0.Snt }
      if mu ≤ uc + 1 then [h]
      else if h.Host = dst then [h]
      else h :: traceFrom routes dst dstCanon mu (uc + 1) rem (i + 1)

/-- The hop table after discovery: the walk from TTL 1 with zero consecutive
unknowns and MaxHops TTLs remaining. -/
def traceHups (routes : ℕ → Option Reply) (dst dstCanon : String)
    (maxHops mu : ℕ) : List MTRHup :=
  traceFrom routes dst dstCanon mu 0 maxHops 1

/-- The record that discovery creates at TTL i: a known record from the route
reply, with one probe sent, zero lost and all RTT statistics set to the reply
RTT, or an unknown record with host three question marks, one sent, one lost
and zero statistics. -/
def hupAt (routes : ℕ → Option Reply) (i : ℕ) : MTRHup :=
  match routes i with
  | some r => ⟨i, r.ip, 0, 0, 1, r.rtt, r.rtt, r.rtt, r.rtt⟩
  | none => ⟨i, "???", 1, 1, 1, 0, 0, 0, 0⟩

/-- The count of consecutive unknown TTLs ending at i, as maintained by the
walk: reset to zero at every known TTL. -/
def cu (routes : ℕ → Option Reply) : ℕ → ℕ
  | 0 => 0
  | i + 1 =>
    match routes (i + 1) with
    | some _ => 0
    | none => cu routes i + 1

/-- The stop condition of the walk at TTL i, as a predicate of the routes map
alone: the known reply IP equals the canonical destination, or the count of
consecutive unknowns has reached MaxUnknowns, or the created host string
equals the raw destination parameter. -/
def stopAt (routes : ℕ → Option Reply) (dst dstCanon : String) (mu i : ℕ) : Bool :=
  (match routes i with | some r => r.ip == dstCanon | none => false)
    || decide (mu ≤ cu routes i)
    || ((hupAt routes i).Host == dst)

/-! ## Probing phase -/


/-- The statistics update on a successful probe, applied to a record whose
Snt counter was already incremented for this probe: Last becomes the RTT, Avg
follows the running mean formula over Snt, Best and Wrst are updated through
the comparison guards of the source. -/
def statUpdate (h : MTRHup) (rtt : ℚ) : MTRHup :=
  { h with
    Last := rtt
    Avg := (h.Avg * (h.Snt - 1) + rtt) / h.Snt
    Best := if h.Best > rtt then rtt else h.Best
    Wrst := if h.Wrst < rtt then rtt else h.Wrst }

/-- The per hop local state of the ping loop of RunMTR and of the concurrent
variant: the hop record and the Branch B locals to (named tto here since to
is reserved in Lean), retryTime, workTimeout and comeback. -/
structure PingSt where
  hup : MTRHup
  tto : ℚ
  retryTime : ℕ
  workTimeout : ℚ
  comeback : Bool
deriving DecidableEq

/-- One iteration of the ping loop of RunMTR (also the loop body of the
concurrent variant).  ping gives the outcome of the ping call of this
iteration as a function of the iteration index and the arguments ip, ttl and
timeout that the source passes; scanOthers gives the other records of the hop
table as read by the duplicate check of Branch B at this iteration (the
current record itself is always part of the scanned table and is added here
in its up to date state). -/
def mtrPingStep (ping : ℕ → String → ℕ → ℚ → Option Reply)
    (scanOthers : ℕ → List MTRHup) (dstCanon : String) (maxHops : ℕ)
    (timeout : ℚ) (j : ℕ) (s : PingSt) : PingSt :=
  let hup := { s.hup with Snt := s.hup.Snt + 1 }
  if hup.Host ≠ "???" then
    match (if s.comeback then ping j hup.Host hup.Count s.workTimeout
           else ping j hup.Host maxHops timeout) with
    | some rp => { s with hup := statUpdate hup rp.rtt }
    | none => { s with hup := { hup with LossPoint := hup.LossPoint + 1 } }
  else
    if 4 ≤ s.retryTime then { s with hup := hup }
    else
      match ping j dstCanon hup.Count s.tto with
      | some rp =>
        if (hup :: scanOthers j).any (fun v => v.Host == rp.ip) then
          { s with
            hup := { hup with LossPoint := hup.LossPoint + 1 }
            tto := if s.tto < 5 then s.tto + 1 else s.tto
            retryTime := s.retryTime + 1 }
        else
          { s with
            comeback := true
            workTimeout := s.tto
            hup := statUpdate { hup with Host := rp.ip } rp.rtt
            retryTime := s.retryTime + 1 }
      | none =>
        { s with
          hup := { hup with LossPoint := hup.LossPoint + 1 }
          tto := if s.tto < 5 then s.tto + 1 else s.tto
          retryTime := s.retryTime + 1 }

/-- Iterate a step function over j = start, start + 1, ... for n steps. -/
def iterSteps {α : Type} (f : ℕ → α → α) : ℕ → ℕ → α → α
  | _, 0, s => s
  | j, n + 1, s => iterSteps f (j + 1) n (f j s)

/-- The final loss recomputation after the ping loop, gated on a known host. -/
def finalizeHup (h : MTRHup) : MTRHup :=
  if h.Host ≠ "???" then { h with Loss := (h.LossPoint : ℚ) / h.Snt } else h

/-- The full ping loop of RunMTR for one hop: PingCount minus one iterations
from the initial Branch B locals (to starts at the transport timeout,
retryTime zero, workTimeout zero, comeback false), then the final loss
recomputation. -/
def mtrHopPing (ping : ℕ → String → ℕ → ℚ → Option Reply)
    (scanOthers : ℕ → List MTRHup) (dstCanon : String) (maxHops : ℕ)
    (timeout : ℚ) (pingCount : ℕ) (hup : MTRHup) : MTRHup :=
  finalizeHup
    (iterSteps (mtrPingStep ping scanOthers dstCanon maxHops timeout) 1
      (pingCount - 1) ⟨hup, timeout, 0, 0, false⟩).hup

/-- The sequential ping phase of RunMTR: hops processed in TTL order, the
duplicate check of a hop scanning the already processed prefix in its final
state and the unprocessed suffix in its discovery state (plus the current
record itself, added inside the step). -/
def mtrPingPhase (pings : ℕ → ℕ → String → ℕ → ℚ → Option Reply)
    (dstCanon : String) (maxHops : ℕ) (timeout : ℚ) (pingCount : ℕ) :
    List MTRHup → List MTRHup → List MTRHup
  | done, [] => done
  | done, hup :: rest =>
    let new := mtrHopPing (pings hup.Count) (fun _ => done ++ rest) dstCanon
      maxHops timeout pingCount hup
    mtrPingPhase pings dstCanon maxHops timeout pingCount (done ++ [new]) rest

/-- The concurrent ping phase of RunMTRWithCocurrentPing: one worker per hop
runs the same loop; the duplicate check reads the other records racily, which
is modelled by the environment supplied views function. -/
def coPingPhase (pings : ℕ → ℕ → String → ℕ → ℚ → Option Reply)
    (views : ℕ → ℕ → List MTRHup) (dstCanon : String) (maxHops : ℕ)
    (timeout : ℚ) (pingCount : ℕ) (table : List MTRHup) : List MTRHup :=
  table.map (fun hup =>
    mtrHopPing (pings hup.Count) (views hup.Count) dstCanon maxHops timeout
      pingCount hup)

/-- One iteration of the ping loop of RunMTRWithNoRetryPing: the sent counter
is incremented, a known hop is probed at MaxHops with the transport timeout,
and an unknown hop gets nothing else at all (there is no else branch). -/
def noRetryStep (ping : ℕ → String → ℕ → ℚ → Option Reply) (maxHops : ℕ)
    (timeout : ℚ) (j : ℕ) (hup : MTRHup) : MTRHup :=
  let h := { hup with Snt := hup.Snt + 1 }
  if h.Host ≠ "???" then
    match ping j h.Host maxHops timeout with
    | some rp => statUpdate h rp.rtt
    | none => { h with LossPoint := h.LossPoint + 1 }
  else h

/-- The full no retry ping loop for one hop, with the final loss
recomputation. -/
def noRetryHopPing (ping : ℕ → String → ℕ → ℚ → Option Reply) (maxHops : ℕ)
    (timeout : ℚ) (pingCount : ℕ) (hup : MTRHup) : MTRHup :=
  finalizeHup (iterSteps (noRetryStep ping maxHops timeout) 1 (pingCount - 1) hup)

/-- The ping phase of RunMTRWithNoRetryPing. -/
def noRetryPhase (pings : ℕ → ℕ → String → ℕ → ℚ → Option Reply)
    (maxHops : ℕ) (timeout : ℚ) (pingCount : ℕ) (table : List MTRHup) :
    List MTRHup :=
  table.map (fun hup => noRetryHopPing (pings hup.Count) maxHops timeout pingCount hup)

/-! ## The run operations -/


/-- The external world of one run: the outcome of the initial Trace call (a
transport error or the stream of replies in callback order), the wall clock
stamp, the outcome of every ping call (indexed by the hop TTL, the iteration,
and the ip, ttl and timeout arguments of the call), and, for the concurrent
variant, the racing view of the other hop records that the duplicate check
reads at each iteration of each hop. -/
structure Env where
  trace : Except String (List Reply)
  now : ℤ
  pings : ℕ → ℕ → String → ℕ → ℚ → Option Reply
  views : ℕ → ℕ → List MTRHup

/-- RunMTR of the source: guard on net.ParseIP of dst, the initial trace, the
discovery walk, the sequential ping loop with Branch B, and assembly.  The
result pairs the report with the returned error if any. -/
def RunMTR (src dst : String) (maxHops pingCount mu : ℕ) (timeout : ℚ)
    (env : Env) : MTRReport × Option String :=
  match parseIP dst with
  | none => (⟨0, "", "", 0, []⟩, some "Unknown dest IP")
  | some dstIP =>
    match env.trace with
    | Except.error e => (⟨0, src, dst, pingCount, []⟩, some e)
    | Except.ok rs =>
      let dstCanon := ipString dstIP
      let table := traceHups (routesOf rs) dst dstCanon maxHops mu
      let hups := mtrPingPhase env.pings dstCanon maxHops timeout pingCount [] table
      (⟨env.now, src, dst, pingCount, hups⟩, none)

/-- RunMTRWithNoRetryPing of the source: as RunMTR but Branch B is absent. -/
def RunMTRWithNoRetryPing (src dst : String) (maxHops pingCount mu : ℕ)
    (timeout : ℚ) (env : Env) : MTRReport × Option String :=
  match parseIP dst with
  | none => (⟨0, "", "", 0, []⟩, some "Unknown dest IP")
  | some dstIP =>
    match env.trace with
    | Except.error e => (⟨0, src, dst, pingCount, []⟩, some e)
    | Except.ok rs =>
      let dstCanon := ipString dstIP
      let table := traceHups (routesOf rs) dst dstCanon maxHops mu
      let hups := noRetryPhase env.pings maxHops timeout pingCount table
      (⟨env.now, src, dst, pingCount, hups⟩, none)

/-- RunMTRWithCocurrentPing of the source: as RunMTR but with one worker per
hop and the racing duplicate check view taken from the environment. -/
def RunMTRWithCocurrentPing (src dst : String) (maxHops pingCount mu : ℕ)
    (timeout : ℚ) (env : Env) : MTRReport × Option String :=
  match parseIP dst with
  | none => (⟨0, "", "", 0, []⟩, some "Unknown dest IP")
  | some dstIP =>
    match env.trace with
    | Except.error e => (⟨0, src, dst, pingCount, []⟩, some e)
    | Except.ok rs =>
      let dstCanon := ipString dstIP
      let table := traceHups (routesOf rs) dst dstCanon maxHops mu
      let hups := coPingPhase env.pings env.views dstCanon maxHops timeout pingCount table
      (⟨env.now, src, dst, pingCount, hups⟩, none)

/-! ## Lemmas about the discovery walk -/


/-- The next value of the consecutive unknown counter after TTL i. -/
def stepUc (routes : ℕ → Option Reply) (uc i : ℕ) : ℕ :=
  match routes i with
  | some _ => 0
  | none => uc + 1

/-- The stop condition of the walk body at TTL i in terms of the incoming
consecutive unknown counter uc. -/
def stopHere (routes : ℕ → Option Reply) (dst dstCanon : String)
    (mu uc i : ℕ) : Bool :=
  match routes i with
  | some r => r.ip == dstCanon || decide (mu ≤ 0) || (r.ip == dst)
  | none => decide (mu ≤ uc + 1) || ("???" == dst)

/-- The unknown hop invariant of the report: a record whose host is still the
unknown sentinel carries loss one and zero RTT statistics. -/
def UnknownZeros (h : MTRHup) : Prop :=
  h.Host = "???" →
    h.Loss = 1 ∧ h.Last = 0 ∧ h.Avg = 0 ∧ h.Best = 0 ∧ h.Wrst = 0

/-- The RTT ordering invariant for known hops. -/
def Ordered (h : MTRHup) : Prop :=
  h.Best ≤ h.Avg ∧ h.Avg ≤ h.Wrst ∧ h.Best ≤ h.Last ∧ h.Last ≤ h.Wrst

/-- The joint statistics invariant maintained through the ping loops: the
sent counter is at least one, an unknown record has zero statistics, and a
known record is ordered. -/
def StatInv (h : MTRHup) : Prop :=
  1 ≤ h.Snt ∧
    (if h.Host = "???" then h.Last = 0 ∧ h.Avg = 0 ∧ h.Best = 0 ∧ h.Wrst = 0
     else Ordered h)

/-- Sum of the values of f over n indices starting at a. -/
def sumF (f : ℕ → ℚ) : ℕ → ℕ → ℚ
  | _, 0 => 0
  | a, n + 1 => f a + sumF f (a + 1) n

/-- Routes map of the C1 witness scenario: known replies at TTL 1 to 3, the
third reply from the destination. -/
def routesC1 : ℕ → Option Reply := fun i =>
  if i = 1 then some ⟨1, "10.0.0.1", 2⟩
  else if i = 2 then some ⟨2, "10.0.0.2", 4⟩
  else if i = 3 then some ⟨3, "1.2.3.4", 8⟩
  else none

/-- Environment of the C2 witness: an empty trace and failing pings. -/
def envC2 : Env := ⟨Except.ok [], 7, fun _ _ _ _ _ => none, fun _ _ => []⟩

/-- Environment of the C7 witness: one known hop, failing pings. -/
def envC7 : Env := ⟨Except.ok [⟨1, "10.0.0.1", 2⟩], 7, fun _ _ _ _ _ => none, fun _ _ => []⟩

/-- Environment of the C8 witness. -/
def envC8 : Env := ⟨Except.ok [⟨1, "10.0.0.1", 2⟩], 7, fun _ _ _ _ _ => none, fun _ _ => []⟩

/-- Environment of the C10 witness. -/
def envC10 : Env := ⟨Except.ok [⟨1, "10.0.0.1", 2⟩], 7, fun _ _ _ _ _ => none, fun _ _ => []⟩

/-- Environment of the C4 failing input: discovery sees no reply at TTL 1,
the Branch B retry against the destination returns responder 10.0.0.2 with
an RTT of five milliseconds. -/
def envC4 : Env := ⟨Except.ok [], 7, fun _ _ _ _ _ => some ⟨0, "10.0.0.2", 5⟩, fun _ _ => []⟩

/-- Environment of the C5 counterexample: no trace replies and failing
pings. -/
def envC5 : Env := ⟨Except.ok [], 7, fun _ _ _ _ _ => none, fun _ _ => []⟩

/-- Environment of the C3 counterexample: a known hop at TTL 1 with RTT 1;
the first probing iteration fails, the second succeeds with RTT 7. -/
def envC3 : Env := ⟨Except.ok [⟨1, "1.2.3.4", 1⟩], 7,
  fun _ j _ _ _ => if j = 2 then some ⟨0, "1.2.3.4", 7⟩ else none, fun _ _ => []⟩

/-- Environment of the C3 amended witness: one known hop, every ping
successful with RTT 5. -/
def envC3w : Env := ⟨Except.ok [⟨1, "1.2.3.4", 1⟩], 7,
  fun _ _ _ _ _ => some ⟨0, "1.2.3.4", 5⟩, fun _ _ => []⟩

/-- The reply sequence of the C3 amended witness. -/
def rfC3 : ℕ → Reply := fun _ => ⟨0, "1.2.3.4", 5⟩

/-- The ping oracle, table view and state of the C6 witness: hop 2 unknown,
one retry already waited, the scanned table holds hop 1 with the host that
the retry reply reports. -/
def pingC6 : ℕ → String → ℕ → ℚ → Option Reply := fun _ _ _ _ => some ⟨0, "10.0.0.1", 3⟩

/-- Table view of the C6 witness. -/
def scanC6 : ℕ → List MTRHup := fun _ => [⟨1, "10.0.0.1", 0, 0, 1, 2, 2, 2, 2⟩]

/-- State of the C6 witness. -/
def sC6 : PingSt := ⟨⟨2, "???", 1, 1, 1, 0, 0, 0, 0⟩, 1, 0, 0, false⟩

/-- Modelled from the spec: a valid IPv4 literal, the dotted quad form that
section 7 of the specification names for ConfigError.  Used to compare the
claimed guard condition with the guard the code actually has. -/
def isIPv4Literal (s : String) : Bool := (parseIPv4 s).isSome

/-- Environment of the C9 counterexample. -/
def envC9 : Env := ⟨Except.ok [], 7, fun _ _ _ _ _ => none, fun _ _ => []⟩

/-- Environment of the C9 amended witness. -/
def envC9b : Env := ⟨Except.ok [], 7, fun _ _ _ _ _ => none, fun _ _ => []⟩

theorem traceFrom_succ (routes : ℕ → Option Reply) (dst dstCanon : String)
    (mu uc rem i : ℕ) :
    traceFrom routes dst dstCanon mu uc (rem + 1) i =
      hupAt routes i ::
        (if stopHere routes dst dstCanon mu uc i then []
         else traceFrom routes dst dstCanon mu (stepUc routes uc i) rem (i + 1)) := by
  cases h : routes i with
  | some r =>
    simp only [traceFrom, hupAt, stopHere, stepUc, h]
    by_cases h1 : r.ip = dstCanon
    · simp [h1]
    · by_cases h2 : mu ≤ 0
      · simp [h1, h2]
      · by_cases h3 : r.ip = dst
        · simp [h1, h2, h3]
        · simp [h1, h2, h3]
  | none =>
    simp only [traceFrom, hupAt, stopHere, stepUc, h]
    by_cases h2 : mu ≤ uc + 1
    · simp [h2]
    · by_cases h3 : "???" = dst
      · simp [h2, h3]
      · simp [h2, h3]

theorem stepUc_cu (routes : ℕ → Option Reply) (i : ℕ) :
    stepUc routes (cu routes i) (i + 1) = cu routes (i + 1) := by
  cases h : routes (i + 1) <;> simp [stepUc, cu, h]

theorem stopHere_cu (routes : ℕ → Option Reply) (dst dstCanon : String)
    (mu i : ℕ) :
    stopHere routes dst dstCanon mu (cu routes i) (i + 1) =
      stopAt routes dst dstCanon mu (i + 1) := by
  cases h : routes (i + 1) <;> simp [stopHere, stopAt, hupAt, cu, h]

theorem traceFrom_length (routes : ℕ → Option Reply) (dst dstCanon : String)
    (mu : ℕ) :
    ∀ rem uc i, (traceFrom routes dst dstCanon mu uc rem i).length ≤ rem := by
  intro rem
  induction rem with
  | zero => intro uc i; simp [traceFrom]
  | succ n ih =>
    intro uc i
    rw [traceFrom_succ]
    cases hs : stopHere routes dst dstCanon mu uc i
    · simp only [hs, Bool.false_eq_true, if_false, List.length_cons]
      exact Nat.succ_le_succ (ih _ _)
    · simp [hs]

theorem traceFrom_get? (routes : ℕ → Option Reply) (dst dstCanon : String)
    (mu : ℕ) :
    ∀ rem uc i k, k < (traceFrom routes dst dstCanon mu uc rem i).length →
      (traceFrom routes dst dstCanon mu uc rem i).get? k = some (hupAt routes (i + k)) := by
  intro rem
  induction rem with
  | zero => intro uc i k hk; simp [traceFrom] at hk
  | succ n ih =>
    intro uc i k hk
    rw [traceFrom_succ] at hk ⊢
    rcases k with _ | k
    · simp
    · cases hs : stopHere routes dst dstCanon mu uc i
      · simp only [hs, Bool.false_eq_true, if_false, List.length_cons] at hk
        simp only [hs, Bool.false_eq_true, if_false, List.get?_cons_succ]
        have := ih (stepUc routes uc i) (i + 1) k (by omega)
        rw [this]
        congr 2
        omega
      · simp [hs] at hk

theorem traceFrom_ne_nil (routes : ℕ → Option Reply) (dst dstCanon : String)
    (mu rem uc i : ℕ) (h : rem ≠ 0) :
    traceFrom routes dst dstCanon mu uc rem i ≠ [] := by
  rcases rem with _ | n
  · exact absurd rfl h
  · rw [traceFrom_succ]; exact List.cons_ne_nil _ _

theorem traceFrom_no_early_stop (routes : ℕ → Option Reply)
    (dst dstCanon : String) (mu : ℕ) :
    ∀ rem i k,
      k + 1 < (traceFrom routes dst dstCanon mu (cu routes i) rem (i + 1)).length →
      stopAt routes dst dstCanon mu (i + 1 + k) = false := by
  intro rem
  induction rem with
  | zero => intro i k hk; simp [traceFrom] at hk
  | succ n ih =>
    intro i k hk
    rw [traceFrom_succ] at hk
    cases hs : stopHere routes dst dstCanon mu (cu routes i) (i + 1)
    · simp only [hs, Bool.false_eq_true, if_false, List.length_cons] at hk
      rcases k with _ | k
      · rw [← stopHere_cu, hs]
      · rw [stepUc_cu] at hk
        have := ih (i + 1) k (by omega)
        rw [← this]
        congr 1
        omega
    · simp [hs] at hk

theorem traceFrom_stop_at_last (routes : ℕ → Option Reply)
    (dst dstCanon : String) (mu : ℕ) :
    ∀ rem i,
      0 < (traceFrom routes dst dstCanon mu (cu routes i) rem (i + 1)).length →
      (traceFrom routes dst dstCanon mu (cu routes i) rem (i + 1)).length < rem →
      stopAt routes dst dstCanon mu
        (i + (traceFrom routes dst dstCanon mu (cu routes i) rem (i + 1)).length) = true := by
  intro rem
  induction rem with
  | zero => intro i h0 hlt; omega
  | succ n ih =>
    intro i h0 hlt
    rw [traceFrom_succ] at h0 hlt ⊢
    cases hs : stopHere routes dst dstCanon mu (cu routes i) (i + 1)
    · simp only [hs, Bool.false_eq_true, if_false, List.length_cons] at hlt ⊢
      rw [stepUc_cu] at hlt ⊢
      have hne : traceFrom routes dst dstCanon mu (cu routes (i + 1)) n (i + 1 + 1) ≠ [] := by
        apply traceFrom_ne_nil
        omega
      have hpos : 0 < (traceFrom routes dst dstCanon mu (cu routes (i + 1)) n (i + 1 + 1)).length :=
        List.length_pos.mpr hne
      have := ih (i + 1) hpos (by omega)
      rw [← this]
      congr 1
      omega
    · simp only [hs, if_true, List.length_cons, List.length_nil]
      rw [← stopHere_cu, hs]

/-! ## Lemmas about the ping loops -/


theorem iterSteps_pres {α : Type} (f : ℕ → α → α) (P : α → Prop)
    (hf : ∀ j s, P s → P (f j s)) :
    ∀ j n s, P s → P (iterSteps f j n s) := by
  intro j n
  induction n generalizing j with
  | zero => intro s h; exact h
  | succ n ih => intro s h; exact ih (j + 1) (f j s) (hf j s h)

theorem iterSteps_count {α : Type} (f : ℕ → α → α) (m : α → ℚ)
    (hf : ∀ j s, m (f j s) = m s + 1) :
    ∀ j n s, m (iterSteps f j n s) = m s + n := by
  intro j n
  induction n generalizing j with
  | zero => intro s; simp [iterSteps]
  | succ n ih =>
    intro s
    show m (iterSteps f (j + 1) n (f j s)) = m s + (n + 1 : ℕ)
    rw [ih (j + 1) (f j s), hf j s]
    push_cast
    ring

theorem mtrPingStep_known_succ {ping : ℕ → String → ℕ → ℚ → Option Reply}
    {scan : ℕ → List MTRHup} {dstCanon : String} {maxHops : ℕ} {timeout : ℚ}
    {j : ℕ} {s : PingSt} {rp : Reply} (hA : s.hup.Host ≠ "???")
    (hp : (if s.comeback then ping j s.hup.Host s.hup.Count s.workTimeout
           else ping j s.hup.Host maxHops timeout) = some rp) :
    mtrPingStep ping scan dstCanon maxHops timeout j s =
      { s with hup := statUpdate { s.hup with Snt := s.hup.Snt + 1 } rp.rtt } := by
  simp only [mtrPingStep]
  rw [if_pos hA]
  rw [show ({ s.hup with Snt := s.hup.Snt + 1 } : MTRHup).Host = s.hup.Host from rfl] at *
  rw [show ({ s.hup with Snt := s.hup.Snt + 1 } : MTRHup).Count = s.hup.Count from rfl]
  rw [hp]

theorem mtrPingStep_known_fail {ping : ℕ → String → ℕ → ℚ → Option Reply}
    {scan : ℕ → List MTRHup} {dstCanon : String} {maxHops : ℕ} {timeout : ℚ}
    {j : ℕ} {s : PingSt} (hA : s.hup.Host ≠ "???")
    (hp : (if s.comeback then ping j s.hup.Host s.hup.Count s.workTimeout
           else ping j s.hup.Host maxHops timeout) = none) :
    mtrPingStep ping scan dstCanon maxHops timeout j s =
      { s with hup := { s.hup with
                        Snt := s.hup.Snt + 1
                        LossPoint := s.hup.LossPoint + 1 } } := by
  simp only [mtrPingStep]
  rw [if_pos hA]
  rw [show ({ s.hup with Snt := s.hup.Snt + 1 } : MTRHup).Host = s.hup.Host from rfl] at *
  rw [show ({ s.hup with Snt := s.hup.Snt + 1 } : MTRHup).Count = s.hup.Count from rfl]
  rw [hp]

theorem mtrPingStep_skip {ping : ℕ → String → ℕ → ℚ → Option Reply}
    {scan : ℕ → List MTRHup} {dstCanon : String} {maxHops : ℕ} {timeout : ℚ}
    {j : ℕ} {s : PingSt} (hU : s.hup.Host = "???") (hr : 4 ≤ s.retryTime) :
    mtrPingStep ping scan dstCanon maxHops timeout j s =
      { s with hup := { s.hup with Snt := s.hup.Snt + 1 } } := by
  simp only [mtrPingStep]
  rw [if_neg (by simpa using hU), if_pos hr]

theorem mtrPingStep_retry_dup {ping : ℕ → String → ℕ → ℚ → Option Reply}
    {scan : ℕ → List MTRHup} {dstCanon : String} {maxHops : ℕ} {timeout : ℚ}
    {j : ℕ} {s : PingSt} {rp : Reply} (hU : s.hup.Host = "???")
    (hr : s.retryTime < 4) (hp : ping j dstCanon s.hup.Count s.tto = some rp)
    (hdup : (({ s.hup with Snt := s.hup.Snt + 1 } : MTRHup) :: scan j).any
      (fun v => v.Host == rp.ip) = true) :
    mtrPingStep ping scan dstCanon maxHops timeout j s =
      { s with
        hup := { s.hup with
                 Snt := s.hup.Snt + 1
                 LossPoint := s.hup.LossPoint + 1 }
        tto := if s.tto < 5 then s.tto + 1 else s.tto
        retryTime := s.retryTime + 1 } := by
  simp only [mtrPingStep]
  rw [if_neg (by simpa using hU), if_neg (by omega)]
  rw [show ({ s.hup with Snt := s.hup.Snt + 1 } : MTRHup).Count = s.hup.Count from rfl]
  rw [hp]
  simp only [hdup, if_true]

theorem mtrPingStep_retry_comeback {ping : ℕ → String → ℕ → ℚ → Option Reply}
    {scan : ℕ → List MTRHup} {dstCanon : String} {maxHops : ℕ} {timeout : ℚ}
    {j : ℕ} {s : PingSt} {rp : Reply} (hU : s.hup.Host = "???")
    (hr : s.retryTime < 4) (hp : ping j dstCanon s.hup.Count s.tto = some rp)
    (hdup : (({ s.hup with Snt := s.hup.Snt + 1 } : MTRHup) :: scan j).any
      (fun v => v.Host == rp.ip) = false) :
    mtrPingStep ping scan dstCanon maxHops timeout j s =
      { s with
        comeback := true
        workTimeout := s.tto
        hup := statUpdate { s.hup with
                            Snt := s.hup.Snt + 1
                            Host := rp.ip } rp.rtt
        retryTime := s.retryTime + 1 } := by
  simp only [mtrPingStep]
  rw [if_neg (by simpa using hU), if_neg (by omega)]
  rw [show ({ s.hup with Snt := s.hup.Snt + 1 } : MTRHup).Count = s.hup.Count from rfl]
  rw [hp]
  simp only [hdup, Bool.false_eq_true, if_false]

theorem mtrPingStep_retry_fail {ping : ℕ → String → ℕ → ℚ → Option Reply}
    {scan : ℕ → List MTRHup} {dstCanon : String} {maxHops : ℕ} {timeout : ℚ}
    {j : ℕ} {s : PingSt} (hU : s.hup.Host = "???")
    (hr : s.retryTime < 4) (hp : ping j dstCanon s.hup.Count s.tto = none) :
    mtrPingStep ping scan dstCanon maxHops timeout j s =
      { s with
        hup := { s.hup with
                 Snt := s.hup.Snt + 1
                 LossPoint := s.hup.LossPoint + 1 }
        tto := if s.tto < 5 then s.tto + 1 else s.tto
        retryTime := s.retryTime + 1 } := by
  simp only [mtrPingStep]
  rw [if_neg (by simpa using hU), if_neg (by omega)]
  rw [show ({ s.hup with Snt := s.hup.Snt + 1 } : MTRHup).Count = s.hup.Count from rfl]
  rw [hp]

/-- Case analysis on the hop record produced by one RunMTR ping iteration:
a Branch A statistics update, a loss increment, a bare sent increment (the
retry cap skip), or a comeback adoption whose responder cannot be the unknown
sentinel because the scanned table contains the current record itself. -/
theorem mtrPingStep_hup_shape (ping : ℕ → String → ℕ → ℚ → Option Reply)
    (scan : ℕ → List MTRHup) (dstCanon : String) (maxHops : ℕ) (timeout : ℚ)
    (j : ℕ) (s : PingSt) :
    (∃ rtt, (mtrPingStep ping scan dstCanon maxHops timeout j s).hup =
        statUpdate { s.hup with Snt := s.hup.Snt + 1 } rtt ∧ s.hup.Host ≠ "???") ∨
    ((mtrPingStep ping scan dstCanon maxHops timeout j s).hup =
        { s.hup with
          Snt := s.hup.Snt + 1
          LossPoint := s.hup.LossPoint + 1 }) ∨
    ((mtrPingStep ping scan dstCanon maxHops timeout j s).hup =
        { s.hup with Snt := s.hup.Snt + 1 }) ∨
    (∃ rp, (mtrPingStep ping scan dstCanon maxHops timeout j s).hup =
        statUpdate { s.hup with
                     Snt := s.hup.Snt + 1
                     Host := rp.ip } rp.rtt ∧
      s.hup.Host = "???" ∧ rp.ip ≠ "???" ∧
      ping j dstCanon s.hup.Count s.tto = some rp) := by
  by_cases hA : s.hup.Host ≠ "???"
  · cases hp : (if s.comeback then ping j s.hup.Host s.hup.Count s.workTimeout
                else ping j s.hup.Host maxHops timeout) with
    | some rp =>
      left
      exact ⟨rp.rtt, by rw [mtrPingStep_known_succ hA hp], hA⟩
    | none =>
      right; left
      rw [mtrPingStep_known_fail hA hp]
  · have hU : s.hup.Host = "???" := not_not.mp (by simpa using hA)
    by_cases hr : 4 ≤ s.retryTime
    · right; right; left
      rw [mtrPingStep_skip hU hr]
    · cases hp : ping j dstCanon s.hup.Count s.tto with
      | some rp =>
        cases hdup : (({ s.hup with Snt := s.hup.Snt + 1 } : MTRHup) :: scan j).any
            (fun v => v.Host == rp.ip) with
        | true =>
          right; left
          rw [mtrPingStep_retry_dup hU (by omega) hp hdup]
        | false =>
          right; right; right
          refine ⟨rp, by rw [mtrPingStep_retry_comeback hU (by omega) hp hdup], hU, ?_, rfl⟩
          have := List.any_eq_false.mp hdup ({ s.hup with Snt := s.hup.Snt + 1 } : MTRHup)
            (List.mem_cons_self _ _)
          intro hip
          apply this
      
          simp only [show ({ s.hup with Snt := s.hup.Snt + 1 } : MTRHup).Host = s.hup.Host from rfl, hU, hip]
          exact beq_self_eq_true _
      | none =>
        right; left
        rw [mtrPingStep_retry_fail hU (by omega) hp]

theorem mtrPingStep_Snt (ping : ℕ → String → ℕ → ℚ → Option Reply)
    (scan : ℕ → List MTRHup) (dstCanon : String) (maxHops : ℕ) (timeout : ℚ)
    (j : ℕ) (s : PingSt) :
    (mtrPingStep ping scan dstCanon maxHops timeout j s).hup.Snt = s.hup.Snt + 1 := by
  rcases mtrPingStep_hup_shape ping scan dstCanon maxHops timeout j s with
    ⟨rtt, he, _⟩ | he | he | ⟨rp, he, _, _, _⟩ <;> rw [he] <;> simp [statUpdate]

theorem mtrPingStep_Count (ping : ℕ → String → ℕ → ℚ → Option Reply)
    (scan : ℕ → List MTRHup) (dstCanon : String) (maxHops : ℕ) (timeout : ℚ)
    (j : ℕ) (s : PingSt) :
    (mtrPingStep ping scan dstCanon maxHops timeout j s).hup.Count = s.hup.Count := by
  rcases mtrPingStep_hup_shape ping scan dstCanon maxHops timeout j s with
    ⟨rtt, he, _⟩ | he | he | ⟨rp, he, _, _, _⟩ <;> rw [he] <;> simp [statUpdate]

theorem statUpdate_ordered {g : MTRHup} {rtt : ℚ} (hs : 2 ≤ g.Snt)
    (ho : Ordered g) : Ordered (statUpdate g rtt) := by
  obtain ⟨h1, h2, h3, h4⟩ := ho
  have hpos : (0 : ℚ) < g.Snt := by linarith
  have hB1 : (if g.Best > rtt then rtt else g.Best) ≤ g.Best := by
    split_ifs with hb
    · linarith
    · exact le_refl _
  have hB2 : (if g.Best > rtt then rtt else g.Best) ≤ rtt := by
    split_ifs with hb
    · exact le_refl _
    · exact not_lt.mp hb
  have hW1 : g.Wrst ≤ (if g.Wrst < rtt then rtt else g.Wrst) := by
    split_ifs with hw
    · linarith
    · exact le_refl _
  have hW2 : rtt ≤ (if g.Wrst < rtt then rtt else g.Wrst) := by
    split_ifs with hw
    · exact le_refl _
    · exact not_lt.mp hw
  have hBA : (if g.Best > rtt then rtt else g.Best) ≤ g.Avg := le_trans hB1 h1
  have hAW : g.Avg ≤ (if g.Wrst < rtt then rtt else g.Wrst) := le_trans h2 hW1
  have hA1 : (if g.Best > rtt then rtt else g.Best) ≤ (g.Avg * (g.Snt - 1) + rtt) / g.Snt := by
    rw [le_div_iff hpos]
    have hm := mul_le_mul_of_nonneg_right hBA (by linarith : (0 : ℚ) ≤ g.Snt - 1)
    have he : (if g.Best > rtt then rtt else g.Best) * g.Snt =
        (if g.Best > rtt then rtt else g.Best) * (g.Snt - 1) +
          (if g.Best > rtt then rtt else g.Best) := by ring
    linarith
  have hA2 : (g.Avg * (g.Snt - 1) + rtt) / g.Snt ≤ (if g.Wrst < rtt then rtt else g.Wrst) := by
    rw [div_le_iff hpos]
    have hm := mul_le_mul_of_nonneg_right hAW (by linarith : (0 : ℚ) ≤ g.Snt - 1)
    have he : (if g.Wrst < rtt then rtt else g.Wrst) * g.Snt =
        (if g.Wrst < rtt then rtt else g.Wrst) * (g.Snt - 1) +
          (if g.Wrst < rtt then rtt else g.Wrst) := by ring
    linarith
  exact ⟨hA1, hA2, hB2, hW2⟩

theorem statUpdate_from_zero {g : MTRHup} {rtt : ℚ} (hs : 1 ≤ g.Snt)
    (hr : 0 ≤ rtt)
    (hz : g.Last = 0 ∧ g.Avg = 0 ∧ g.Best = 0 ∧ g.Wrst = 0) :
    Ordered (statUpdate g rtt) := by
  obtain ⟨hl, ha, hb, hw⟩ := hz
  have hpos : (0 : ℚ) < g.Snt := by linarith
  have hB : (if g.Best > rtt then rtt else g.Best) = 0 := by
    rw [hb]
    split_ifs with h
    · linarith
    · rfl
  have hW : (if g.Wrst < rtt then rtt else g.Wrst) = rtt := by
    rw [hw]
    split_ifs with h
    · rfl
    · linarith
  have hA : (g.Avg * (g.Snt - 1) + rtt) / g.Snt = rtt / g.Snt := by
    rw [ha]; ring_nf
  refine ⟨?_, ?_, ?_, ?_⟩
  · show (if g.Best > rtt then rtt else g.Best) ≤ (g.Avg * (g.Snt - 1) + rtt) / g.Snt
    rw [hB, hA]
    exact div_nonneg hr (le_of_lt hpos)
  · show (g.Avg * (g.Snt - 1) + rtt) / g.Snt ≤ (if g.Wrst < rtt then rtt else g.Wrst)
    rw [hA, hW]
    exact div_le_self hr hs
  · show (if g.Best > rtt then rtt else g.Best) ≤ rtt
    rw [hB]; exact hr
  · show rtt ≤ (if g.Wrst < rtt then rtt else g.Wrst)
    rw [hW]

theorem mtrPingStep_unknownZeros (ping : ℕ → String → ℕ → ℚ → Option Reply)
    (scan : ℕ → List MTRHup) (dstCanon : String) (maxHops : ℕ) (timeout : ℚ)
    (j : ℕ) (s : PingSt) (hz : UnknownZeros s.hup) :
    UnknownZeros (mtrPingStep ping scan dstCanon maxHops timeout j s).hup := by
  rcases mtrPingStep_hup_shape ping scan dstCanon maxHops timeout j s with
    ⟨rtt, he, hA⟩ | he | he | ⟨rp, he, hU, hip, _⟩
  · rw [he]
    intro hh
    exact absurd (by simpa [statUpdate] using hh) hA
  · rw [he]
    intro hh
    have := hz (by simpa using hh)
    simpa using this
  · rw [he]
    intro hh
    have := hz (by simpa using hh)
    simpa using this
  · rw [he]
    intro hh
    exact absurd (by simpa [statUpdate] using hh) hip

theorem mtrPingStep_statInv (ping : ℕ → String → ℕ → ℚ → Option Reply)
    (scan : ℕ → List MTRHup) (dstCanon : String) (maxHops : ℕ) (timeout : ℚ)
    (j : ℕ) (s : PingSt)
    (hping : ∀ i ip ttl tmo r, ping i ip ttl tmo = some r → 0 ≤ r.rtt)
    (hi : StatInv s.hup) : StatInv (mtrPingStep ping scan dstCanon maxHops timeout j s).hup := by
  obtain ⟨hs, hrest⟩ := hi
  rcases mtrPingStep_hup_shape ping scan dstCanon maxHops timeout j s with
    ⟨rtt, he, hA⟩ | he | he | ⟨rp, he, hU, hip, hpg⟩
  · rw [he]
    rw [if_neg hA] at hrest
    constructor
    · show ({ s.hup with Snt := s.hup.Snt + 1 } : MTRHup).Snt ≥ 1
      show s.hup.Snt + 1 ≥ 1
      linarith
    · rw [if_neg (show ¬ (statUpdate { s.hup with Snt := s.hup.Snt + 1 } rtt).Host = "???" from hA)]
      exact statUpdate_ordered (by show 2 ≤ s.hup.Snt + 1; linarith) hrest
  · rw [he]
    refine ⟨by show 1 ≤ s.hup.Snt + 1; linarith, ?_⟩
    by_cases hh : s.hup.Host = "???"
    · rw [if_pos hh] at hrest ⊢
      exact hrest
    · rw [if_neg hh] at hrest ⊢
      exact hrest
  · rw [he]
    refine ⟨by show 1 ≤ s.hup.Snt + 1; linarith, ?_⟩
    by_cases hh : s.hup.Host = "???"
    · rw [if_pos hh] at hrest ⊢
      exact hrest
    · rw [if_neg hh] at hrest ⊢
      exact hrest
  · rw [he]
    rw [if_pos hU] at hrest
    constructor
    · show ({ s.hup with Snt := s.hup.Snt + 1, Host := rp.ip } : MTRHup).Snt ≥ 1
      show s.hup.Snt + 1 ≥ 1
      linarith
    · rw [if_neg (show ¬ (statUpdate { s.hup with Snt := s.hup.Snt + 1, Host := rp.ip } rp.rtt).Host = "???" from hip)]
      exact statUpdate_from_zero (by show 1 ≤ s.hup.Snt + 1; linarith)
        (hping _ _ _ _ _ hpg) hrest

theorem noRetryStep_unknown {ping : ℕ → String → ℕ → ℚ → Option Reply}
    {maxHops : ℕ} {timeout : ℚ} {j : ℕ} {h : MTRHup} (hU : h.Host = "???") :
    noRetryStep ping maxHops timeout j h = { h with Snt := h.Snt + 1 } := by
  simp only [noRetryStep]
  rw [if_neg (by simpa using hU)]

/-- Case analysis on one RunMTRWithNoRetryPing iteration. -/
theorem noRetryStep_shape (ping : ℕ → String → ℕ → ℚ → Option Reply)
    (maxHops : ℕ) (timeout : ℚ) (j : ℕ) (h : MTRHup) :
    (∃ rtt, noRetryStep ping maxHops timeout j h =
        statUpdate { h with Snt := h.Snt + 1 } rtt ∧ h.Host ≠ "???") ∨
    (noRetryStep ping maxHops timeout j h =
        { h with
          Snt := h.Snt + 1
          LossPoint := h.LossPoint + 1 } ∧ h.Host ≠ "???") ∨
    (noRetryStep ping maxHops timeout j h = { h with Snt := h.Snt + 1 } ∧ h.Host = "???") := by
  by_cases hA : h.Host ≠ "???"
  · cases hp : ping j h.Host maxHops timeout with
    | some rp =>
      left
      refine ⟨rp.rtt, ?_, hA⟩
      simp only [noRetryStep]
      rw [if_pos (by simpa using hA)]
      rw [show ({ h with Snt := h.Snt + 1 } : MTRHup).Host = h.Host from rfl, hp]
    | none =>
      right; left
      refine ⟨?_, hA⟩
      simp only [noRetryStep]
      rw [if_pos (by simpa using hA)]
      rw [show ({ h with Snt := h.Snt + 1 } : MTRHup).Host = h.Host from rfl, hp]
  · have hU : h.Host = "???" := not_not.mp (by simpa using hA)
    right; right
    exact ⟨noRetryStep_unknown hU, hU⟩

theorem noRetryStep_Snt (ping : ℕ → String → ℕ → ℚ → Option Reply)
    (maxHops : ℕ) (timeout : ℚ) (j : ℕ) (h : MTRHup) :
    (noRetryStep ping maxHops timeout j h).Snt = h.Snt + 1 := by
  rcases noRetryStep_shape ping maxHops timeout j h with
    ⟨rtt, he, _⟩ | ⟨he, _⟩ | ⟨he, _⟩ <;> rw [he] <;> simp [statUpdate]

theorem noRetryStep_Count (ping : ℕ → String → ℕ → ℚ → Option Reply)
    (maxHops : ℕ) (timeout : ℚ) (j : ℕ) (h : MTRHup) :
    (noRetryStep ping maxHops timeout j h).Count = h.Count := by
  rcases noRetryStep_shape ping maxHops timeout j h with
    ⟨rtt, he, _⟩ | ⟨he, _⟩ | ⟨he, _⟩ <;> rw [he] <;> simp [statUpdate]

theorem noRetryStep_unknownZeros (ping : ℕ → String → ℕ → ℚ → Option Reply)
    (maxHops : ℕ) (timeout : ℚ) (j : ℕ) (h : MTRHup) (hz : UnknownZeros h) :
    UnknownZeros (noRetryStep ping maxHops timeout j h) := by
  rcases noRetryStep_shape ping maxHops timeout j h with
    ⟨rtt, he, hA⟩ | ⟨he, hA⟩ | ⟨he, hU⟩
  · rw [he]
    intro hh
    exact absurd (by simpa [statUpdate] using hh) hA
  · rw [he]
    intro hh
    exact absurd (by simpa using hh) hA
  · rw [he]
    intro hh
    have := hz hU
    simpa using this

theorem noRetryStep_statInv (ping : ℕ → String → ℕ → ℚ → Option Reply)
    (maxHops : ℕ) (timeout : ℚ) (j : ℕ) (h : MTRHup) (hi : StatInv h) :
    StatInv (noRetryStep ping maxHops timeout j h) := by
  obtain ⟨hs, hrest⟩ := hi
  rcases noRetryStep_shape ping maxHops timeout j h with
    ⟨rtt, he, hA⟩ | ⟨he, hA⟩ | ⟨he, hU⟩
  · rw [he]
    rw [if_neg hA] at hrest
    refine ⟨by show 1 ≤ h.Snt + 1; linarith, ?_⟩
    rw [if_neg (show ¬ (statUpdate { h with Snt := h.Snt + 1 } rtt).Host = "???" from hA)]
    exact statUpdate_ordered (by show 2 ≤ h.Snt + 1; linarith) hrest
  · rw [he]
    refine ⟨by show 1 ≤ h.Snt + 1; linarith, ?_⟩
    by_cases hh : h.Host = "???"
    · rw [if_pos hh] at hrest ⊢; exact hrest
    · rw [if_neg hh] at hrest ⊢; exact hrest
  · rw [he]
    refine ⟨by show 1 ≤ h.Snt + 1; linarith, ?_⟩
    rw [if_pos hU] at hrest
    rw [if_pos (show ({ h with Snt := h.Snt + 1 } : MTRHup).Host = "???" from hU)]
    exact hrest

theorem finalizeHup_Host (h : MTRHup) : (finalizeHup h).Host = h.Host := by
  simp only [finalizeHup]
  split <;> rfl

theorem finalizeHup_Count (h : MTRHup) : (finalizeHup h).Count = h.Count := by
  simp only [finalizeHup]
  split <;> rfl

theorem finalizeHup_Snt (h : MTRHup) : (finalizeHup h).Snt = h.Snt := by
  simp only [finalizeHup]
  split <;> rfl

theorem finalizeHup_unknown {h : MTRHup} (hU : h.Host = "???") :
    finalizeHup h = h := by
  simp only [finalizeHup]
  rw [if_neg (by simpa using hU)]

theorem finalizeHup_unknownZeros (h : MTRHup) (hz : UnknownZeros h) :
    UnknownZeros (finalizeHup h) := by
  intro hh
  rw [finalizeHup_Host] at hh
  rw [finalizeHup_unknown hh]
  exact hz hh

theorem finalizeHup_statInv (h : MTRHup) (hi : StatInv h) :
    StatInv (finalizeHup h) := by
  obtain ⟨hs, hrest⟩ := hi
  simp only [finalizeHup]
  split
  · exact ⟨hs, hrest⟩
  · exact ⟨hs, hrest⟩

theorem mtrHopPing_pres {P : MTRHup → Prop}
    (ping : ℕ → String → ℕ → ℚ → Option Reply) (scan : ℕ → List MTRHup)
    (dstCanon : String) (maxHops : ℕ) (timeout : ℚ) (pc : ℕ) (hup : MTRHup)
    (hstep : ∀ j s, P s.hup → P (mtrPingStep ping scan dstCanon maxHops timeout j s).hup)
    (hfin : ∀ h, P h → P (finalizeHup h)) (h0 : P hup) :
    P (mtrHopPing ping scan dstCanon maxHops timeout pc hup) := by
  unfold mtrHopPing
  exact hfin _ (iterSteps_pres _ (fun (s : PingSt) => P s.hup) hstep 1 (pc - 1) _ h0)

theorem mtrHopPing_Snt (ping : ℕ → String → ℕ → ℚ → Option Reply)
    (scan : ℕ → List MTRHup) (dstCanon : String) (maxHops : ℕ) (timeout : ℚ)
    (pc : ℕ) (hup : MTRHup) :
    (mtrHopPing ping scan dstCanon maxHops timeout pc hup).Snt =
      hup.Snt + (pc - 1 : ℕ) := by
  unfold mtrHopPing
  rw [finalizeHup_Snt]
  exact iterSteps_count _ (fun (s : PingSt) => s.hup.Snt)
    (fun j s => mtrPingStep_Snt ping scan dstCanon maxHops timeout j s) 1 (pc - 1) _

theorem mtrHopPing_Count (ping : ℕ → String → ℕ → ℚ → Option Reply)
    (scan : ℕ → List MTRHup) (dstCanon : String) (maxHops : ℕ) (timeout : ℚ)
    (pc : ℕ) (hup : MTRHup) :
    (mtrHopPing ping scan dstCanon maxHops timeout pc hup).Count = hup.Count := by
  unfold mtrHopPing
  rw [finalizeHup_Count]
  exact iterSteps_pres _ (fun (s : PingSt) => s.hup.Count = hup.Count)
    (fun j s hp => by
      show (mtrPingStep ping scan dstCanon maxHops timeout j s).hup.Count = hup.Count
      rw [mtrPingStep_Count]
      exact hp) 1 (pc - 1) _ rfl

theorem noRetryHopPing_pres {P : MTRHup → Prop}
    (ping : ℕ → String → ℕ → ℚ → Option Reply) (maxHops : ℕ) (timeout : ℚ)
    (pc : ℕ) (hup : MTRHup)
    (hstep : ∀ j h, P h → P (noRetryStep ping maxHops timeout j h))
    (hfin : ∀ h, P h → P (finalizeHup h)) (h0 : P hup) :
    P (noRetryHopPing ping maxHops timeout pc hup) := by
  unfold noRetryHopPing
  exact hfin _ (iterSteps_pres _ P hstep 1 (pc - 1) _ h0)

theorem noRetryHopPing_Snt (ping : ℕ → String → ℕ → ℚ → Option Reply)
    (maxHops : ℕ) (timeout : ℚ) (pc : ℕ) (hup : MTRHup) :
    (noRetryHopPing ping maxHops timeout pc hup).Snt = hup.Snt + (pc - 1 : ℕ) := by
  unfold noRetryHopPing
  rw [finalizeHup_Snt]
  exact iterSteps_count _ MTRHup.Snt
    (fun j h => noRetryStep_Snt ping maxHops timeout j h) 1 (pc - 1) _

theorem noRetryHopPing_Count (ping : ℕ → String → ℕ → ℚ → Option Reply)
    (maxHops : ℕ) (timeout : ℚ) (pc : ℕ) (hup : MTRHup) :
    (noRetryHopPing ping maxHops timeout pc hup).Count = hup.Count := by
  unfold noRetryHopPing
  rw [finalizeHup_Count]
  exact iterSteps_pres _ (fun (h : MTRHup) => h.Count = hup.Count)
    (fun j h hp => by
      show (noRetryStep ping maxHops timeout j h).Count = hup.Count
      rw [noRetryStep_Count]
      exact hp) 1 (pc - 1) _ rfl

/-- The ping loop of the no retry variant leaves an unknown hop untouched
apart from the sent counter, which grows by one per iteration. -/
theorem noRetryHopPing_unknown (ping : ℕ → String → ℕ → ℚ → Option Reply)
    (maxHops : ℕ) (timeout : ℚ) (pc : ℕ) (hup : MTRHup) (hU : hup.Host = "???") :
    noRetryHopPing ping maxHops timeout pc hup =
      { hup with Snt := hup.Snt + (pc - 1 : ℕ) } := by
  unfold noRetryHopPing
  have key : ∀ n j h, h.Host = "???" →
      iterSteps (noRetryStep ping maxHops timeout) j n h = { h with Snt := h.Snt + n } := by
    intro n
    induction n with
    | zero =>
      intro j h hh
      show h = { h with Snt := h.Snt + (0 : ℕ) }
      simp
    | succ n ih =>
      intro j h hh
      show iterSteps (noRetryStep ping maxHops timeout) (j + 1) n
        (noRetryStep ping maxHops timeout j h) = _
      rw [noRetryStep_unknown hh]
      rw [ih (j + 1) _ (show ({ h with Snt := h.Snt + 1 } : MTRHup).Host = "???" from hh)]
      show ({ h with Snt := h.Snt + 1 + (n : ℕ) } : MTRHup) = { h with Snt := h.Snt + ((n : ℕ) + 1 : ℕ) }
      have : h.Snt + 1 + (n : ℕ) = h.Snt + ((n : ℕ) + 1 : ℕ) := by push_cast; ring
      rw [this]
  rw [key (pc - 1) 1 hup hU]
  exact finalizeHup_unknown hU

theorem mtrPingPhase_map_Count (pings : ℕ → ℕ → String → ℕ → ℚ → Option Reply)
    (dstCanon : String) (maxHops : ℕ) (timeout : ℚ) (pc : ℕ) :
    ∀ todo done, (mtrPingPhase pings dstCanon maxHops timeout pc done todo).map MTRHup.Count =
      (done ++ todo).map MTRHup.Count := by
  intro todo
  induction todo with
  | nil => intro done; simp [mtrPingPhase]
  | cons hup rest ih =>
    intro done
    simp only [mtrPingPhase]
    rw [ih]
    simp [mtrHopPing_Count]

theorem mtrPingPhase_mem (pings : ℕ → ℕ → String → ℕ → ℚ → Option Reply)
    (dstCanon : String) (maxHops : ℕ) (timeout : ℚ) (pc : ℕ) :
    ∀ todo done h, h ∈ mtrPingPhase pings dstCanon maxHops timeout pc done todo →
      h ∈ done ∨ ∃ hup, hup ∈ todo ∧ ∃ scan,
        h = mtrHopPing (pings hup.Count) scan dstCanon maxHops timeout pc hup := by
  intro todo
  induction todo with
  | nil =>
    intro done h hm
    left
    simpa [mtrPingPhase] using hm
  | cons hup rest ih =>
    intro done h hm
    simp only [mtrPingPhase] at hm
    rcases ih _ h hm with hd | ⟨hup2, hmem, scan, he⟩
    · rcases List.mem_append.mp hd with h1 | h2
      · left; exact h1
      · right
        refine ⟨hup, List.mem_cons_self _ _, fun _ => done ++ rest, ?_⟩
        simpa using h2
    · right
      exact ⟨hup2, List.mem_cons_of_mem _ hmem, scan, he⟩

theorem mtrPingPhase_prefix (pings : ℕ → ℕ → String → ℕ → ℚ → Option Reply)
    (dstCanon : String) (maxHops : ℕ) (timeout : ℚ) (pc : ℕ) :
    ∀ todo done, ∃ out, mtrPingPhase pings dstCanon maxHops timeout pc done todo = done ++ out := by
  intro todo
  induction todo with
  | nil => intro done; exact ⟨[], by simp [mtrPingPhase]⟩
  | cons hup rest ih =>
    intro done
    obtain ⟨out, he⟩ := ih (done ++
      [mtrHopPing (pings hup.Count) (fun _ => done ++ rest) dstCanon maxHops timeout pc hup])
    refine ⟨mtrHopPing (pings hup.Count) (fun _ => done ++ rest) dstCanon maxHops timeout pc hup :: out, ?_⟩
    simp only [mtrPingPhase]
    rw [he]
    simp

theorem mtrPingPhase_get? (pings : ℕ → ℕ → String → ℕ → ℚ → Option Reply)
    (dstCanon : String) (maxHops : ℕ) (timeout : ℚ) (pc : ℕ) :
    ∀ todo done k hup, todo.get? k = some hup →
      ∃ scan, (mtrPingPhase pings dstCanon maxHops timeout pc done todo).get? (done.length + k) =
        some (mtrHopPing (pings hup.Count) scan dstCanon maxHops timeout pc hup) := by
  intro todo
  induction todo with
  | nil => intro done k hup h; simp at h
  | cons hup0 rest ih =>
    intro done k hup h
    rcases k with _ | k
    · have h0 : hup0 = hup := by simpa using h
      subst h0
      refine ⟨fun _ => done ++ rest, ?_⟩
      simp only [mtrPingPhase]
      obtain ⟨out, he⟩ := mtrPingPhase_prefix pings dstCanon maxHops timeout pc rest
        (done ++ [mtrHopPing (pings hup0.Count) (fun _ => done ++ rest) dstCanon maxHops timeout pc hup0])
      rw [he, List.append_assoc, Nat.add_zero]
      rw [List.get?_append_right (le_refl done.length)]
      simp
    · have h' : rest.get? k = some hup := by simpa using h
      obtain ⟨scan, he⟩ := ih (done ++
        [mtrHopPing (pings hup0.Count) (fun _ => done ++ rest) dstCanon maxHops timeout pc hup0]) k hup h'
      refine ⟨scan, ?_⟩
      simp only [mtrPingPhase]
      have hlen : done.length + (k + 1) =
          (done ++ [mtrHopPing (pings hup0.Count) (fun _ => done ++ rest) dstCanon maxHops timeout pc hup0]).length + k := by
        simp
        omega
      rw [hlen]
      exact he

theorem finalizeHup_Avg (h : MTRHup) : (finalizeHup h).Avg = h.Avg := by
  simp only [finalizeHup]
  split <;> rfl

/-- Branch A with every probe successful: the host never changes, comeback is
never entered, the sent counter grows by one per iteration, and the running
mean satisfies the invariant that Avg times Snt is the initial product plus
the sum of the reply RTTs. -/
theorem iterSteps_branchA (ping : ℕ → String → ℕ → ℚ → Option Reply)
    (scan : ℕ → List MTRHup) (dstCanon : String) (maxHops : ℕ) (timeout : ℚ)
    (rf : ℕ → Reply) :
    ∀ n j s, s.hup.Host ≠ "???" → s.comeback = false → 1 ≤ s.hup.Snt →
      (∀ i, j ≤ i → i < j + n → ping i s.hup.Host maxHops timeout = some (rf i)) →
      (iterSteps (mtrPingStep ping scan dstCanon maxHops timeout) j n s).hup.Host = s.hup.Host ∧
      (iterSteps (mtrPingStep ping scan dstCanon maxHops timeout) j n s).hup.Snt = s.hup.Snt + n ∧
      (iterSteps (mtrPingStep ping scan dstCanon maxHops timeout) j n s).hup.Avg *
          (iterSteps (mtrPingStep ping scan dstCanon maxHops timeout) j n s).hup.Snt =
        s.hup.Avg * s.hup.Snt + sumF (fun i => (rf i).rtt) j n := by
  intro n
  induction n with
  | zero =>
    intro j s _ _ _ _
    refine ⟨rfl, by simp [iterSteps], by simp [iterSteps, sumF]⟩
  | succ n ih =>
    intro j s hA hcb hs hcall
    have hp : (if s.comeback then ping j s.hup.Host s.hup.Count s.workTimeout
               else ping j s.hup.Host maxHops timeout) = some (rf j) := by
      rw [hcb]
      simpa using hcall j (le_refl j) (by omega)
    have hstep := @mtrPingStep_known_succ ping scan dstCanon maxHops timeout j s (rf j) hA hp
    have hunfold : iterSteps (mtrPingStep ping scan dstCanon maxHops timeout) j (n + 1) s =
        iterSteps (mtrPingStep ping scan dstCanon maxHops timeout) (j + 1) n
          (mtrPingStep ping scan dstCanon maxHops timeout j s) := rfl
    rw [hunfold, hstep]
    have hhost : ({ s with hup := statUpdate { s.hup with Snt := s.hup.Snt + 1 } (rf j).rtt } : PingSt).hup.Host = s.hup.Host := rfl
    have hsnt : ({ s with hup := statUpdate { s.hup with Snt := s.hup.Snt + 1 } (rf j).rtt } : PingSt).hup.Snt = s.hup.Snt + 1 := rfl
    have havg : ({ s with hup := statUpdate { s.hup with Snt := s.hup.Snt + 1 } (rf j).rtt } : PingSt).hup.Avg =
        (s.hup.Avg * s.hup.Snt + (rf j).rtt) / (s.hup.Snt + 1) := by
      show (s.hup.Avg * (s.hup.Snt + 1 - 1) + (rf j).rtt) / (s.hup.Snt + 1) = _
      ring_nf
    obtain ⟨ih1, ih2, ih3⟩ := ih (j + 1)
      { s with hup := statUpdate { s.hup with Snt := s.hup.Snt + 1 } (rf j).rtt }
      (by rw [hhost]; exact hA)
      hcb
      (by rw [hsnt]; linarith)
      (by
        intro i hi1 hi2
        rw [hhost]
        exact hcall i (by omega) (by omega))
    refine ⟨?_, ?_, ?_⟩
    · rw [ih1, hhost]
    · rw [ih2, hsnt]
      push_cast
      ring
    · rw [ih3, hsnt, havg]
      have hne : s.hup.Snt + 1 ≠ 0 := by linarith
      rw [div_mul_cancel₀ _ hne]
      show s.hup.Avg * s.hup.Snt + (rf j).rtt + sumF (fun i => (rf i).rtt) (j + 1) n =
        s.hup.Avg * s.hup.Snt + ((rf j).rtt + sumF (fun i => (rf i).rtt) (j + 1) n)
      ring

/-- The full Branch A loop of RunMTR for a hop known at discovery with one
probe recorded and every further probe successful. -/
theorem mtrHopPing_allSuccess (ping : ℕ → String → ℕ → ℚ → Option Reply)
    (scan : ℕ → List MTRHup) (dstCanon : String) (maxHops : ℕ) (timeout : ℚ)
    (pc : ℕ) (hup : MTRHup) (rf : ℕ → Reply) (hA : hup.Host ≠ "???")
    (hs : hup.Snt = 1) (hpc : 1 ≤ pc)
    (hcall : ∀ i, 1 ≤ i → i < pc → ping i hup.Host maxHops timeout = some (rf i)) :
    (mtrHopPing ping scan dstCanon maxHops timeout pc hup).Avg =
      (hup.Avg + sumF (fun i => (rf i).rtt) 1 (pc - 1)) / pc := by
  obtain ⟨h1, h2, h3⟩ := iterSteps_branchA ping scan dstCanon maxHops timeout rf (pc - 1) 1
    ⟨hup, timeout, 0, 0, false⟩ hA rfl (by rw [hs]) (by
      intro i hi1 hi2
      exact hcall i hi1 (by omega))
  unfold mtrHopPing
  rw [finalizeHup_Avg]
  have hsnt : (iterSteps (mtrPingStep ping scan dstCanon maxHops timeout) 1 (pc - 1)
      ⟨hup, timeout, 0, 0, false⟩).hup.Snt = (pc : ℚ) := by
    rw [h2, hs]
    have : ((pc - 1 : ℕ) : ℚ) = (pc : ℚ) - 1 := by
      rw [Nat.cast_sub hpc]
      norm_num
    rw [this]
    ring
  rw [hs] at h3
  rw [hsnt] at h3
  have hne : (pc : ℚ) ≠ 0 := by
    have : (1 : ℚ) ≤ (pc : ℚ) := by exact_mod_cast hpc
    linarith
  field_simp
  linarith [h3]

/-- With a parse failure every run operation returns the zero report and the
fixed error, independently of the environment. -/
theorem RunMTR_parse_none {src dst : String} {maxHops pc mu : ℕ} {timeout : ℚ}
    {env : Env} (hd : parseIP dst = none) :
    RunMTR src dst maxHops pc mu timeout env = (⟨0, "", "", 0, []⟩, some "Unknown dest IP") := by
  simp [RunMTR, hd]

theorem RunMTRWithNoRetryPing_parse_none {src dst : String} {maxHops pc mu : ℕ}
    {timeout : ℚ} {env : Env} (hd : parseIP dst = none) :
    RunMTRWithNoRetryPing src dst maxHops pc mu timeout env =
      (⟨0, "", "", 0, []⟩, some "Unknown dest IP") := by
  simp [RunMTRWithNoRetryPing, hd]

theorem RunMTRWithCocurrentPing_parse_none {src dst : String} {maxHops pc mu : ℕ}
    {timeout : ℚ} {env : Env} (hd : parseIP dst = none) :
    RunMTRWithCocurrentPing src dst maxHops pc mu timeout env =
      (⟨0, "", "", 0, []⟩, some "Unknown dest IP") := by
  simp [RunMTRWithCocurrentPing, hd]

theorem RunMTR_ok {src dst : String} {maxHops pc mu : ℕ} {timeout : ℚ}
    {env : Env} {dstIP : List ℕ} {rs : List Reply}
    (hd : parseIP dst = some dstIP) (ht : env.trace = Except.ok rs) :
    RunMTR src dst maxHops pc mu timeout env =
      (⟨env.now, src, dst, pc,
        mtrPingPhase env.pings (ipString dstIP) maxHops timeout pc []
          (traceHups (routesOf rs) dst (ipString dstIP) maxHops mu)⟩, none) := by
  simp [RunMTR, hd, ht]

theorem RunMTRWithNoRetryPing_ok {src dst : String} {maxHops pc mu : ℕ}
    {timeout : ℚ} {env : Env} {dstIP : List ℕ} {rs : List Reply}
    (hd : parseIP dst = some dstIP) (ht : env.trace = Except.ok rs) :
    RunMTRWithNoRetryPing src dst maxHops pc mu timeout env =
      (⟨env.now, src, dst, pc,
        noRetryPhase env.pings maxHops timeout pc
          (traceHups (routesOf rs) dst (ipString dstIP) maxHops mu)⟩, none) := by
  simp [RunMTRWithNoRetryPing, hd, ht]

theorem RunMTRWithCocurrentPing_ok {src dst : String} {maxHops pc mu : ℕ}
    {timeout : ℚ} {env : Env} {dstIP : List ℕ} {rs : List Reply}
    (hd : parseIP dst = some dstIP) (ht : env.trace = Except.ok rs) :
    RunMTRWithCocurrentPing src dst maxHops pc mu timeout env =
      (⟨env.now, src, dst, pc,
        coPingPhase env.pings env.views (ipString dstIP) maxHops timeout pc
          (traceHups (routesOf rs) dst (ipString dstIP) maxHops mu)⟩, none) := by
  simp [RunMTRWithCocurrentPing, hd, ht]

theorem RunMTR_trace_error {src dst : String} {maxHops pc mu : ℕ} {timeout : ℚ}
    {env : Env} {dstIP : List ℕ} {e : String}
    (hd : parseIP dst = some dstIP) (ht : env.trace = Except.error e) :
    RunMTR src dst maxHops pc mu timeout env = (⟨0, src, dst, pc, []⟩, some e) := by
  simp [RunMTR, hd, ht]

theorem RunMTRWithNoRetryPing_trace_error {src dst : String} {maxHops pc mu : ℕ}
    {timeout : ℚ} {env : Env} {dstIP : List ℕ} {e : String}
    (hd : parseIP dst = some dstIP) (ht : env.trace = Except.error e) :
    RunMTRWithNoRetryPing src dst maxHops pc mu timeout env = (⟨0, src, dst, pc, []⟩, some e) := by
  simp [RunMTRWithNoRetryPing, hd, ht]

theorem RunMTRWithCocurrentPing_trace_error {src dst : String} {maxHops pc mu : ℕ}
    {timeout : ℚ} {env : Env} {dstIP : List ℕ} {e : String}
    (hd : parseIP dst = some dstIP) (ht : env.trace = Except.error e) :
    RunMTRWithCocurrentPing src dst maxHops pc mu timeout env = (⟨0, src, dst, pc, []⟩, some e) := by
  simp [RunMTRWithCocurrentPing, hd, ht]

theorem hupAt_Snt (routes : ℕ → Option Reply) (i : ℕ) : (hupAt routes i).Snt = 1 := by
  unfold hupAt
  cases routes i <;> rfl

theorem hupAt_Count (routes : ℕ → Option Reply) (i : ℕ) : (hupAt routes i).Count = i := by
  unfold hupAt
  cases routes i <;> rfl

theorem routesOf_mem {rs : List Reply} {i : ℕ} {r : Reply}
    (h : routesOf rs i = some r) : r ∈ rs :=
  List.mem_of_find?_eq_some h

theorem hupAt_unknownZeros (routes : ℕ → Option Reply) (i : ℕ)
    (hips : ∀ r, routes i = some r → r.ip ≠ "???") :
    UnknownZeros (hupAt routes i) := by
  unfold hupAt
  cases h : routes i with
  | some r =>
    intro hh
    exact absurd (by simpa using hh) (hips r h)
  | none =>
    intro _
    exact ⟨rfl, rfl, rfl, rfl, rfl⟩

theorem hupAt_statInv (routes : ℕ → Option Reply) (i : ℕ)
    (hips : ∀ r, routes i = some r → r.ip ≠ "???") :
    StatInv (hupAt routes i) := by
  unfold hupAt
  cases h : routes i with
  | some r =>
    refine ⟨by norm_num, ?_⟩
    rw [if_neg (by simpa using hips r h)]
    exact ⟨le_refl _, le_refl _, le_refl _, le_refl _⟩
  | none =>
    refine ⟨by norm_num, ?_⟩
    rw [if_pos rfl]
    exact ⟨rfl, rfl, rfl, rfl⟩

theorem traceHups_mem_hupAt {routes : ℕ → Option Reply} {dst dstCanon : String}
    {maxHops mu : ℕ} {h : MTRHup}
    (hm : h ∈ traceHups routes dst dstCanon maxHops mu) :
    ∃ i, h = hupAt routes (i + 1) := by
  obtain ⟨n, hn⟩ := List.mem_iff_get?.mp hm
  have hlt : n < (traceHups routes dst dstCanon maxHops mu).length :=
    List.get?_eq_some.mp hn |>.1
  have := traceFrom_get? routes dst dstCanon mu maxHops 0 1 n hlt
  refine ⟨n, ?_⟩
  have heq : some h = some (hupAt routes (1 + n)) := by
    rw [← hn]
    exact this
  have := Option.some.inj heq
  rw [this]
  congr 1
  omega

theorem noRetryStep_Host (ping : ℕ → String → ℕ → ℚ → Option Reply)
    (maxHops : ℕ) (timeout : ℚ) (j : ℕ) (h : MTRHup) :
    (noRetryStep ping maxHops timeout j h).Host = h.Host := by
  rcases noRetryStep_shape ping maxHops timeout j h with
    ⟨rtt, he, _⟩ | ⟨he, _⟩ | ⟨he, _⟩ <;> rw [he] <;> simp [statUpdate]

theorem noRetryHopPing_Host (ping : ℕ → String → ℕ → ℚ → Option Reply)
    (maxHops : ℕ) (timeout : ℚ) (pc : ℕ) (hup : MTRHup) :
    (noRetryHopPing ping maxHops timeout pc hup).Host = hup.Host := by
  unfold noRetryHopPing
  rw [finalizeHup_Host]
  exact iterSteps_pres _ (fun (h : MTRHup) => h.Host = hup.Host)
    (fun j h hp => by
      show (noRetryStep ping maxHops timeout j h).Host = hup.Host
      rw [noRetryStep_Host]
      exact hp) 1 (pc - 1) _ rfl

/-- C1: During discovery, for every run variant (the three run operations all
build their hop table as traceHups, by definition), the table is the walk of
TTL 1 up to MaxHops: entry k is the known or unknown record hupAt for TTL
k + 1; no stop condition (destination IP reached, consecutive unknown count
at MaxUnknowns, or host equal to the raw destination string, checked in this
order in the walk body) holds at any TTL before the last entry; if the walk
ended before MaxHops the stop condition holds at the last entry; and the
table never exceeds MaxHops entries, so no TTL beyond the stopping point
appears. -/
theorem c1_discovery_walk (routes : ℕ → Option Reply) (dst dstCanon : String)
    (maxHops mu : ℕ) :
    (traceHups routes dst dstCanon maxHops mu).length ≤ maxHops ∧
    (∀ k, k < (traceHups routes dst dstCanon maxHops mu).length →
      (traceHups routes dst dstCanon maxHops mu).get? k = some (hupAt routes (k + 1))) ∧
    (∀ k, k + 1 < (traceHups routes dst dstCanon maxHops mu).length →
      stopAt routes dst dstCanon mu (k + 1) = false) ∧
    (0 < (traceHups routes dst dstCanon maxHops mu).length →
      (traceHups routes dst dstCanon maxHops mu).length < maxHops →
      stopAt routes dst dstCanon mu (traceHups routes dst dstCanon maxHops mu).length = true) ∧
    (maxHops ≠ 0 → traceHups routes dst dstCanon maxHops mu ≠ []) := by
  have h0 : cu routes 0 = 0 := rfl
  simp only [traceHups]
  refine ⟨traceFrom_length routes dst dstCanon mu maxHops 0 1, ?_, ?_, ?_,
    fun h => traceFrom_ne_nil routes dst dstCanon mu maxHops 0 1 h⟩
  · intro k hk
    have h := traceFrom_get? routes dst dstCanon mu maxHops 0 1 k hk
    have he : 1 + k = k + 1 := by omega
    rw [he] at h
    exact h
  · intro k hk
    have h := traceFrom_no_early_stop routes dst dstCanon mu maxHops 0 k
      (by simp only [h0, Nat.zero_add]; exact hk)
    simp only [Nat.zero_add] at h
    have he : 1 + k = k + 1 := by omega
    rw [he] at h
    exact h
  · intro h1 h2
    have h := traceFrom_stop_at_last routes dst dstCanon mu maxHops 0
      (by simp only [h0, Nat.zero_add]; exact h1)
      (by simp only [h0, Nat.zero_add]; exact h2)
    simp only [h0, Nat.zero_add] at h
    exact h

theorem c1_discovery_walk_witness :
    (traceHups routesC1 "1.2.3.4" "1.2.3.4" 30 5).length ≤ 30 ∧
    (traceHups routesC1 "1.2.3.4" "1.2.3.4" 30 5).get? 0 = some (hupAt routesC1 1) ∧
    stopAt routesC1 "1.2.3.4" "1.2.3.4" 5 1 = false ∧
    stopAt routesC1 "1.2.3.4" "1.2.3.4" 5
      (traceHups routesC1 "1.2.3.4" "1.2.3.4" 30 5).length = true := by
  obtain ⟨h1, h2, h3, h4, h5⟩ := c1_discovery_walk routesC1 "1.2.3.4" "1.2.3.4" 30 5
  exact ⟨h1, h2 0 (by decide), h3 0 (by decide), h4 (by decide) (by decide)⟩

/-- C2: In every run variant, a hop of the returned report whose host is
still the unknown sentinel reports loss one and zero Last, Avg, Best and
Wrst, whatever the sent and lost counters reached, because the final
loss recomputation is gated on a known host.  The only environment
assumption is that trace responder addresses are never the literal sentinel
string (IP.String output never is). -/
theorem c2_unknown_hop_zeros (src dst : String) (maxHops pc mu : ℕ)
    (timeout : ℚ) (env : Env)
    (htrace : ∀ rs, env.trace = Except.ok rs → ∀ r ∈ rs, r.ip ≠ "???") :
    (∀ h ∈ (RunMTR src dst maxHops pc mu timeout env).1.Hups, UnknownZeros h) ∧
    (∀ h ∈ (RunMTRWithNoRetryPing src dst maxHops pc mu timeout env).1.Hups, UnknownZeros h) ∧
    (∀ h ∈ (RunMTRWithCocurrentPing src dst maxHops pc mu timeout env).1.Hups, UnknownZeros h) := by
  cases hd : parseIP dst with
  | none =>
    rw [RunMTR_parse_none hd, RunMTRWithNoRetryPing_parse_none hd,
      RunMTRWithCocurrentPing_parse_none hd]
    refine ⟨?_, ?_, ?_⟩ <;> (intro h hm; simp at hm)
  | some dstIP =>
    cases ht : env.trace with
    | error e =>
      rw [RunMTR_trace_error hd ht, RunMTRWithNoRetryPing_trace_error hd ht,
        RunMTRWithCocurrentPing_trace_error hd ht]
      refine ⟨?_, ?_, ?_⟩ <;> (intro h hm; simp at hm)
    | ok rs =>
      have hips : ∀ i r, routesOf rs i = some r → r.ip ≠ "???" :=
        fun i r hr => htrace rs ht r (routesOf_mem hr)
      have htab : ∀ h ∈ traceHups (routesOf rs) dst (ipString dstIP) maxHops mu,
          UnknownZeros h := by
        intro h hm
        obtain ⟨i, he⟩ := traceHups_mem_hupAt hm
        rw [he]
        exact hupAt_unknownZeros _ (i + 1) (fun r hr => hips (i + 1) r hr)
      refine ⟨?_, ?_, ?_⟩
      · rw [RunMTR_ok hd ht]
        intro h hm
        rcases mtrPingPhase_mem env.pings (ipString dstIP) maxHops timeout pc _ [] h hm with
          hf | ⟨hup, hmem, scan, he⟩
        · simp at hf
        · rw [he]
          exact mtrHopPing_pres _ _ _ _ _ _ _
            (fun j s hz => mtrPingStep_unknownZeros _ _ _ _ _ j s hz)
            finalizeHup_unknownZeros (htab hup hmem)
      · rw [RunMTRWithNoRetryPing_ok hd ht]
        intro h hm
        obtain ⟨hup, hmem, he⟩ := List.mem_map.mp hm
        rw [← he]
        exact noRetryHopPing_pres _ _ _ _ _
          (fun j h0 hz => noRetryStep_unknownZeros _ _ _ j h0 hz)
          finalizeHup_unknownZeros (htab hup hmem)
      · rw [RunMTRWithCocurrentPing_ok hd ht]
        intro h hm
        obtain ⟨hup, hmem, he⟩ := List.mem_map.mp hm
        rw [← he]
        exact mtrHopPing_pres _ _ _ _ _ _ _
          (fun j s hz => mtrPingStep_unknownZeros _ _ _ _ _ j s hz)
          finalizeHup_unknownZeros (htab hup hmem)

theorem c2_unknown_hop_zeros_witness :
    (⟨1, "???", 1, 1, 1, 0, 0, 0, 0⟩ : MTRHup) ∈
      (RunMTR "0.0.0.0" "9.9.9.9" 30 1 1 1 envC2).1.Hups ∧
    UnknownZeros ⟨1, "???", 1, 1, 1, 0, 0, 0, 0⟩ := by
  have hm : (⟨1, "???", 1, 1, 1, 0, 0, 0, 0⟩ : MTRHup) ∈
      (RunMTR "0.0.0.0" "9.9.9.9" 30 1 1 1 envC2).1.Hups := by decide
  refine ⟨hm, ?_⟩
  exact (c2_unknown_hop_zeros "0.0.0.0" "9.9.9.9" 30 1 1 1 envC2
    (by
      intro rs hrs r hr
      cases hrs
      simp at hr)).1 _ hm

/-- C7: In every run variant, a hop of the returned report with a known host
satisfies Best at most Avg at most Wrst and Last between Best and Wrst.  A
known host implies at least one successful probe (discovery reply or
comeback), so the success hypothesis of the claim is implied.  Environment
assumptions: trace responder addresses are never the unknown sentinel and
ping reply RTT values are nonnegative. -/
theorem c7_rtt_ordering (src dst : String) (maxHops pc mu : ℕ) (timeout : ℚ)
    (env : Env)
    (htrace : ∀ rs, env.trace = Except.ok rs → ∀ r ∈ rs, r.ip ≠ "???")
    (hping : ∀ c j ip ttl tmo r, env.pings c j ip ttl tmo = some r → 0 ≤ r.rtt) :
    (∀ h ∈ (RunMTR src dst maxHops pc mu timeout env).1.Hups, h.Host ≠ "???" → Ordered h) ∧
    (∀ h ∈ (RunMTRWithNoRetryPing src dst maxHops pc mu timeout env).1.Hups, h.Host ≠ "???" → Ordered h) ∧
    (∀ h ∈ (RunMTRWithCocurrentPing src dst maxHops pc mu timeout env).1.Hups, h.Host ≠ "???" → Ordered h) := by
  have hof : ∀ h : MTRHup, StatInv h → h.Host ≠ "???" → Ordered h := by
    intro h hi hh
    have := hi.2
    rw [if_neg hh] at this
    exact this
  cases hd : parseIP dst with
  | none =>
    rw [RunMTR_parse_none hd, RunMTRWithNoRetryPing_parse_none hd,
      RunMTRWithCocurrentPing_parse_none hd]
    refine ⟨?_, ?_, ?_⟩ <;> (intro h hm; simp at hm)
  | some dstIP =>
    cases ht : env.trace with
    | error e =>
      rw [RunMTR_trace_error hd ht, RunMTRWithNoRetryPing_trace_error hd ht,
        RunMTRWithCocurrentPing_trace_error hd ht]
      refine ⟨?_, ?_, ?_⟩ <;> (intro h hm; simp at hm)
    | ok rs =>
      have hips : ∀ i r, routesOf rs i = some r → r.ip ≠ "???" :=
        fun i r hr => htrace rs ht r (routesOf_mem hr)
      have htab : ∀ h ∈ traceHups (routesOf rs) dst (ipString dstIP) maxHops mu,
          StatInv h := by
        intro h hm
        obtain ⟨i, he⟩ := traceHups_mem_hupAt hm
        rw [he]
        exact hupAt_statInv _ (i + 1) (fun r hr => hips (i + 1) r hr)
      refine ⟨?_, ?_, ?_⟩
      · rw [RunMTR_ok hd ht]
        intro h hm
        rcases mtrPingPhase_mem env.pings (ipString dstIP) maxHops timeout pc _ [] h hm with
          hf | ⟨hup, hmem, scan, he⟩
        · simp at hf
        · rw [he]
          exact hof _ (mtrHopPing_pres _ _ _ _ _ _ _
            (fun j s hi => mtrPingStep_statInv _ _ _ _ _ j s
              (fun i ip ttl tmo r hr => hping hup.Count i ip ttl tmo r hr) hi)
            finalizeHup_statInv (htab hup hmem))
      · rw [RunMTRWithNoRetryPing_ok hd ht]
        intro h hm
        obtain ⟨hup, hmem, he⟩ := List.mem_map.mp hm
        rw [← he]
        exact hof _ (noRetryHopPing_pres _ _ _ _ _
          (fun j h0 hi => noRetryStep_statInv _ _ _ j h0 hi)
          finalizeHup_statInv (htab hup hmem))
      · rw [RunMTRWithCocurrentPing_ok hd ht]
        intro h hm
        obtain ⟨hup, hmem, he⟩ := List.mem_map.mp hm
        rw [← he]
        exact hof _ (mtrHopPing_pres _ _ _ _ _ _ _
          (fun j s hi => mtrPingStep_statInv _ _ _ _ _ j s
            (fun i ip ttl tmo r hr => hping hup.Count i ip ttl tmo r hr) hi)
          finalizeHup_statInv (htab hup hmem))

theorem c7_rtt_ordering_witness :
    (⟨1, "10.0.0.1", 1/2, 1, 2, 2, 2, 2, 2⟩ : MTRHup) ∈
      (RunMTR "0.0.0.0" "9.9.9.9" 1 2 5 1 envC7).1.Hups ∧
    Ordered ⟨1, "10.0.0.1", 1/2, 1, 2, 2, 2, 2, 2⟩ := by
  have hm : (⟨1, "10.0.0.1", 1/2, 1, 2, 2, 2, 2, 2⟩ : MTRHup) ∈
      (RunMTR "0.0.0.0" "9.9.9.9" 1 2 5 1 envC7).1.Hups := by decide
  refine ⟨hm, ?_⟩
  exact (c7_rtt_ordering "0.0.0.0" "9.9.9.9" 1 2 5 1 envC7
    (by
      intro rs hrs r hr
      cases hrs
      simp at hr
      rw [hr]
      decide)
    (by
      intro c j ip ttl tmo r hr
      simp [envC7] at hr)).1 _ hm (by decide)

/-- C8: For every run that returns without error, the hop list of the report
has the entry at position k carrying Count k + 1 (so it is strictly
ascending by Count with no gaps) and its length is at most MaxHops. -/
theorem c8_report_counts (src dst : String) (maxHops pc mu : ℕ) (timeout : ℚ)
    (env : Env) :
    ((RunMTR src dst maxHops pc mu timeout env).2 = none →
      (RunMTR src dst maxHops pc mu timeout env).1.Hups.length ≤ maxHops ∧
      ∀ k h, (RunMTR src dst maxHops pc mu timeout env).1.Hups.get? k = some h →
        h.Count = k + 1) ∧
    ((RunMTRWithNoRetryPing src dst maxHops pc mu timeout env).2 = none →
      (RunMTRWithNoRetryPing src dst maxHops pc mu timeout env).1.Hups.length ≤ maxHops ∧
      ∀ k h, (RunMTRWithNoRetryPing src dst maxHops pc mu timeout env).1.Hups.get? k = some h →
        h.Count = k + 1) ∧
    ((RunMTRWithCocurrentPing src dst maxHops pc mu timeout env).2 = none →
      (RunMTRWithCocurrentPing src dst maxHops pc mu timeout env).1.Hups.length ≤ maxHops ∧
      ∀ k h, (RunMTRWithCocurrentPing src dst maxHops pc mu timeout env).1.Hups.get? k = some h →
        h.Count = k + 1) := by
  cases hd : parseIP dst with
  | none =>
    rw [RunMTR_parse_none hd, RunMTRWithNoRetryPing_parse_none hd,
      RunMTRWithCocurrentPing_parse_none hd]
    refine ⟨?_, ?_, ?_⟩ <;> (intro he; simp at he)
  | some dstIP =>
    cases ht : env.trace with
    | error e =>
      rw [RunMTR_trace_error hd ht, RunMTRWithNoRetryPing_trace_error hd ht,
        RunMTRWithCocurrentPing_trace_error hd ht]
      refine ⟨?_, ?_, ?_⟩ <;> (intro he; simp at he)
    | ok rs =>
      have hlen : (traceHups (routesOf rs) dst (ipString dstIP) maxHops mu).length ≤ maxHops :=
        traceFrom_length (routesOf rs) dst (ipString dstIP) mu maxHops 0 1
      have htabc : ∀ k h,
          (traceHups (routesOf rs) dst (ipString dstIP) maxHops mu).get? k = some h →
          h.Count = k + 1 := by
        intro k h hk
        have hklt : k < (traceHups (routesOf rs) dst (ipString dstIP) maxHops mu).length :=
          (List.get?_eq_some.mp hk).1
        have := traceFrom_get? (routesOf rs) dst (ipString dstIP) mu maxHops 0 1 k hklt
        rw [show traceFrom (routesOf rs) dst (ipString dstIP) mu 0 maxHops 1 =
          traceHups (routesOf rs) dst (ipString dstIP) maxHops mu from rfl, hk] at this
        have hh : h = hupAt (routesOf rs) (1 + k) := Option.some.inj this
        rw [hh, hupAt_Count]
        omega
      refine ⟨?_, ?_, ?_⟩
      · rw [RunMTR_ok hd ht]
        intro _
        have hmap := mtrPingPhase_map_Count env.pings (ipString dstIP) maxHops timeout pc
          (traceHups (routesOf rs) dst (ipString dstIP) maxHops mu) []
        have hlel : (mtrPingPhase env.pings (ipString dstIP) maxHops timeout pc []
            (traceHups (routesOf rs) dst (ipString dstIP) maxHops mu)).length =
            (traceHups (routesOf rs) dst (ipString dstIP) maxHops mu).length := by
          have := congrArg List.length hmap
          simpa using this
        refine ⟨by rw [hlel]; exact hlen, ?_⟩
        intro k h hk
        have h1 : ((mtrPingPhase env.pings (ipString dstIP) maxHops timeout pc []
            (traceHups (routesOf rs) dst (ipString dstIP) maxHops mu)).map MTRHup.Count).get? k =
            some h.Count := by
          rw [List.get?_map, hk]
          rfl
        rw [hmap] at h1
        simp only [List.nil_append, List.get?_map] at h1
        cases hk2 : (traceHups (routesOf rs) dst (ipString dstIP) maxHops mu).get? k with
        | none => rw [hk2] at h1; simp at h1
        | some hup =>
          rw [hk2] at h1
          have hcc : h.Count = hup.Count := by simpa using h1.symm
          rw [hcc]
          exact htabc k hup hk2
      · rw [RunMTRWithNoRetryPing_ok hd ht]
        intro _
        refine ⟨by simpa [noRetryPhase] using hlen, ?_⟩
        intro k h hk
        unfold noRetryPhase at hk
        rw [List.get?_map] at hk
        cases hk2 : (traceHups (routesOf rs) dst (ipString dstIP) maxHops mu).get? k with
        | none => rw [hk2] at hk; simp at hk
        | some hup =>
          rw [hk2] at hk
          have hh : noRetryHopPing (env.pings hup.Count) maxHops timeout pc hup = h := by
            simpa using hk
          rw [← hh, noRetryHopPing_Count]
          exact htabc k hup hk2
      · rw [RunMTRWithCocurrentPing_ok hd ht]
        intro _
        refine ⟨by simpa [coPingPhase] using hlen, ?_⟩
        intro k h hk
        unfold coPingPhase at hk
        rw [List.get?_map] at hk
        cases hk2 : (traceHups (routesOf rs) dst (ipString dstIP) maxHops mu).get? k with
        | none => rw [hk2] at hk; simp at hk
        | some hup =>
          rw [hk2] at hk
          have hh : mtrHopPing (env.pings hup.Count) (env.views hup.Count) (ipString dstIP)
              maxHops timeout pc hup = h := by
            simpa using hk
          rw [← hh, mtrHopPing_Count]
          exact htabc k hup hk2

theorem c8_report_counts_witness :
    (RunMTR "0.0.0.0" "9.9.9.9" 5 2 5 1 envC8).2 = none ∧
    (RunMTR "0.0.0.0" "9.9.9.9" 5 2 5 1 envC8).1.Hups.length ≤ 5 := by
  refine ⟨by decide, ?_⟩
  exact ((c8_report_counts "0.0.0.0" "9.9.9.9" 5 2 5 1 envC8).1 (by decide)).1

/-- C10: In every run variant, every hop of the returned report has its sent
counter exactly PingCount when PingCount is at least one: discovery
contributes one, and each of the PingCount minus one loop iterations
increments the counter unconditionally at the top, including the iterations
that the retry cap of Branch B skips. -/
theorem c10_snt_eq_pingcount (src dst : String) (maxHops pc mu : ℕ)
    (timeout : ℚ) (env : Env) (hpc : 1 ≤ pc) :
    (∀ h ∈ (RunMTR src dst maxHops pc mu timeout env).1.Hups, h.Snt = (pc : ℚ)) ∧
    (∀ h ∈ (RunMTRWithNoRetryPing src dst maxHops pc mu timeout env).1.Hups, h.Snt = (pc : ℚ)) ∧
    (∀ h ∈ (RunMTRWithCocurrentPing src dst maxHops pc mu timeout env).1.Hups, h.Snt = (pc : ℚ)) := by
  have hcast : (1 : ℚ) + ((pc - 1 : ℕ) : ℚ) = (pc : ℚ) := by
    rw [Nat.cast_sub hpc]
    push_cast
    ring
  cases hd : parseIP dst with
  | none =>
    rw [RunMTR_parse_none hd, RunMTRWithNoRetryPing_parse_none hd,
      RunMTRWithCocurrentPing_parse_none hd]
    refine ⟨?_, ?_, ?_⟩ <;> (intro h hm; simp at hm)
  | some dstIP =>
    cases ht : env.trace with
    | error e =>
      rw [RunMTR_trace_error hd ht, RunMTRWithNoRetryPing_trace_error hd ht,
        RunMTRWithCocurrentPing_trace_error hd ht]
      refine ⟨?_, ?_, ?_⟩ <;> (intro h hm; simp at hm)
    | ok rs =>
      have htab : ∀ h ∈ traceHups (routesOf rs) dst (ipString dstIP) maxHops mu,
          h.Snt = 1 := by
        intro h hm
        obtain ⟨i, he⟩ := traceHups_mem_hupAt hm
        rw [he]
        exact hupAt_Snt _ _
      refine ⟨?_, ?_, ?_⟩
      · rw [RunMTR_ok hd ht]
        intro h hm
        rcases mtrPingPhase_mem env.pings (ipString dstIP) maxHops timeout pc _ [] h hm with
          hf | ⟨hup, hmem, scan, he⟩
        · simp at hf
        · rw [he, mtrHopPing_Snt, htab hup hmem, hcast]
      · rw [RunMTRWithNoRetryPing_ok hd ht]
        intro h hm
        obtain ⟨hup, hmem, he⟩ := List.mem_map.mp hm
        rw [← he, noRetryHopPing_Snt, htab hup hmem, hcast]
      · rw [RunMTRWithCocurrentPing_ok hd ht]
        intro h hm
        obtain ⟨hup, hmem, he⟩ := List.mem_map.mp hm
        rw [← he, mtrHopPing_Snt, htab hup hmem, hcast]

theorem c10_snt_eq_pingcount_witness :
    (⟨1, "10.0.0.1", 2/3, 2, 3, 2, 2, 2, 2⟩ : MTRHup) ∈
      (RunMTR "0.0.0.0" "9.9.9.9" 1 3 5 1 envC10).1.Hups ∧
    (⟨1, "10.0.0.1", 2/3, 2, 3, 2, 2, 2, 2⟩ : MTRHup).Snt = ((3 : ℕ) : ℚ) := by
  have hm : (⟨1, "10.0.0.1", 2/3, 2, 3, 2, 2, 2, 2⟩ : MTRHup) ∈
      (RunMTR "0.0.0.0" "9.9.9.9" 1 3 5 1 envC10).1.Hups := by decide
  exact ⟨hm, (c10_snt_eq_pingcount "0.0.0.0" "9.9.9.9" 1 3 5 1 envC10 (by decide)).1 _ hm⟩

/-- C4: evaluation of RunMTR at the failing input.  Hop 1 is unknown at
discovery (Best initialised to zero) and is recovered through comeback with
a single successful probe of RTT 5, the only successful probe of the hop.
The claim requires Best to be the minimum RTT over successful probes, 5, but
the comeback update guard keeps the zero initialisation, so the report
carries Best equal to 0. -/
theorem c4_comeback_best_zero :
    (RunMTR "0.0.0.0" "9.9.9.9" 1 2 5 1 envC4).1.Hups.map
        (fun h => (h.Host, h.Last, h.Best, h.Wrst)) = [("10.0.0.2", 5, 0, 5)] ∧
    (0 : ℚ) ≠ 5 := by
  constructor
  · decide
  · decide

/-- C5 counterexample: in the no retry variant with PingCount 3 the unknown
hop ends with Snt 3 but LossPoint still 1 (its discovery value); the claim
as stated requires lost to equal PingCount, which is false here. -/
theorem c5_counterexample :
    (RunMTRWithNoRetryPing "0.0.0.0" "9.9.9.9" 1 3 5 1 envC5).1.Hups.map
        (fun h => (h.Host, h.Snt, h.LossPoint)) = [("???", 3, 1)] ∧
    (1 : ℕ) ≠ 3 := by
  constructor
  · decide
  · decide

/-- C5 (amended): in the no retry variant, an unknown hop of the report has
every probing iteration increment the sent counter only, so it ends with
Snt equal to PingCount and LossPoint still 1, its discovery value (the else
branch of the source is absent, so lost is not incremented). -/
theorem c5_no_retry_unknown (src dst : String) (maxHops pc mu : ℕ)
    (timeout : ℚ) (env : Env) (hpc : 1 ≤ pc)
    (htrace : ∀ rs, env.trace = Except.ok rs → ∀ r ∈ rs, r.ip ≠ "???") :
    ∀ h ∈ (RunMTRWithNoRetryPing src dst maxHops pc mu timeout env).1.Hups,
      h.Host = "???" → h.Snt = (pc : ℚ) ∧ h.LossPoint = 1 := by
  have hcast : (1 : ℚ) + ((pc - 1 : ℕ) : ℚ) = (pc : ℚ) := by
    rw [Nat.cast_sub hpc]
    push_cast
    ring
  cases hd : parseIP dst with
  | none =>
    rw [RunMTRWithNoRetryPing_parse_none hd]
    intro h hm
    simp at hm
  | some dstIP =>
    cases ht : env.trace with
    | error e =>
      rw [RunMTRWithNoRetryPing_trace_error hd ht]
      intro h hm
      simp at hm
    | ok rs =>
      rw [RunMTRWithNoRetryPing_ok hd ht]
      intro h hm hh
      obtain ⟨hup, hmem, he⟩ := List.mem_map.mp hm
      have hhostU : hup.Host = "???" := by
        rw [← noRetryHopPing_Host (env.pings hup.Count) maxHops timeout pc hup, he]
        exact hh
      obtain ⟨i, hrec⟩ := traceHups_mem_hupAt hmem
      have hsnt1 : hup.Snt = 1 := by rw [hrec]; exact hupAt_Snt _ _
      have hlp1 : hup.LossPoint = 1 := by
        rw [hrec] at hhostU ⊢
        unfold hupAt at hhostU ⊢
        cases hr : routesOf rs (i + 1) with
        | some r =>
          rw [hr] at hhostU
          exact absurd (by simpa using hhostU)
            (htrace rs ht r (routesOf_mem hr))
        | none => rfl
      rw [← he, noRetryHopPing_unknown _ _ _ _ _ hhostU]
      refine ⟨?_, hlp1⟩
      show hup.Snt + ((pc - 1 : ℕ) : ℚ) = (pc : ℚ)
      rw [hsnt1, hcast]

theorem c5_no_retry_unknown_witness :
    (⟨1, "???", 1, 1, 4, 0, 0, 0, 0⟩ : MTRHup) ∈
      (RunMTRWithNoRetryPing "0.0.0.0" "9.9.9.9" 1 4 5 1 envC5).1.Hups ∧
    (⟨1, "???", 1, 1, 4, 0, 0, 0, 0⟩ : MTRHup).Snt = ((4 : ℕ) : ℚ) ∧
    (⟨1, "???", 1, 1, 4, 0, 0, 0, 0⟩ : MTRHup).LossPoint = 1 := by
  have hm : (⟨1, "???", 1, 1, 4, 0, 0, 0, 0⟩ : MTRHup) ∈
      (RunMTRWithNoRetryPing "0.0.0.0" "9.9.9.9" 1 4 5 1 envC5).1.Hups := by decide
  refine ⟨hm, ?_⟩
  exact c5_no_retry_unknown "0.0.0.0" "9.9.9.9" 1 4 5 1 envC5 (by decide)
    (by
      intro rs hrs r hr
      cases hrs
      simp at hr) _ hm (by decide)

/-- C3 counterexample: the successful probes of hop 1 are the discovery
reply (RTT 1) and the second probing iteration (RTT 7), so the claimed mean
over successful probes is 4; the first probing iteration is lost.  The code
reports Avg 3 because its running formula divides by the full sent counter
3, which also counts the lost probe. -/
theorem c3_counterexample :
    envC3.pings 1 1 "1.2.3.4" 1 1 = none ∧
    envC3.pings 1 2 "1.2.3.4" 1 1 = some ⟨0, "1.2.3.4", 7⟩ ∧
    (RunMTR "0.0.0.0" "9.9.9.9" 1 3 5 1 envC3).1.Hups.map
        (fun h => (h.Host, h.Snt, h.LossPoint, h.Avg)) = [("1.2.3.4", 3, 1, 3)] ∧
    (3 : ℚ) ≠ (1 + 7) / 2 := by
  refine ⟨by decide, by decide, by decide, by decide⟩

/-- C3 (amended): the running mean of the source divides by the full sent
counter, so Avg is the mean of the successful RTT values only when no probe
of the hop is lost.  For a hop known at discovery whose every probing
iteration succeeds, the final Avg is the sum of the discovery RTT and the
PingCount minus one reply RTT values, divided by PingCount, which is then
exactly the arithmetic mean of the successful probes. -/
theorem c3_avg_running_formula (src dst : String) (maxHops pc mu : ℕ)
    (timeout : ℚ) (env : Env) (dstIP : List ℕ) (rs : List Reply) (k : ℕ)
    (r0 : Reply) (rf : ℕ → Reply)
    (hd : parseIP dst = some dstIP) (ht : env.trace = Except.ok rs)
    (hpc : 1 ≤ pc) (hr0 : routesOf rs (k + 1) = some r0) (hip : r0.ip ≠ "???")
    (hk : k < (traceHups (routesOf rs) dst (ipString dstIP) maxHops mu).length)
    (hcall : ∀ i, 1 ≤ i → i < pc →
      env.pings (k + 1) i r0.ip maxHops timeout = some (rf i)) :
    ∀ h, (RunMTR src dst maxHops pc mu timeout env).1.Hups.get? k = some h →
      h.Avg = (r0.rtt + sumF (fun i => (rf i).rtt) 1 (pc - 1)) / pc := by
  intro h hh
  rw [RunMTR_ok hd ht] at hh
  have hh2 : (mtrPingPhase env.pings (ipString dstIP) maxHops timeout pc []
      (traceHups (routesOf rs) dst (ipString dstIP) maxHops mu)).get? k = some h := hh
  have hrec : (traceHups (routesOf rs) dst (ipString dstIP) maxHops mu).get? k =
      some (hupAt (routesOf rs) (k + 1)) := by
    have h1 := traceFrom_get? (routesOf rs) dst (ipString dstIP) mu maxHops 0 1 k hk
    have he : 1 + k = k + 1 := by omega
    rw [he] at h1
    exact h1
  obtain ⟨scan, hg⟩ := mtrPingPhase_get? env.pings (ipString dstIP) maxHops timeout pc
    (traceHups (routesOf rs) dst (ipString dstIP) maxHops mu) [] k _ hrec
  rw [show (([] : List MTRHup)).length + k = k by simp] at hg
  rw [hh2] at hg
  have hEq : h = mtrHopPing (env.pings (hupAt (routesOf rs) (k + 1)).Count) scan
      (ipString dstIP) maxHops timeout pc (hupAt (routesOf rs) (k + 1)) :=
    Option.some.inj hg
  have hAt : hupAt (routesOf rs) (k + 1) =
      ⟨k + 1, r0.ip, 0, 0, 1, r0.rtt, r0.rtt, r0.rtt, r0.rtt⟩ := by
    unfold hupAt
    rw [hr0]
  rw [hEq, hAt]
  exact mtrHopPing_allSuccess
    (env.pings (⟨k + 1, r0.ip, 0, 0, 1, r0.rtt, r0.rtt, r0.rtt, r0.rtt⟩ : MTRHup).Count)
    scan (ipString dstIP) maxHops timeout pc
    ⟨k + 1, r0.ip, 0, 0, 1, r0.rtt, r0.rtt, r0.rtt, r0.rtt⟩ rf hip rfl hpc
    (fun i h1 h2 => hcall i h1 h2)

theorem c3_avg_running_formula_witness :
    (RunMTR "0.0.0.0" "9.9.9.9" 1 3 5 1 envC3w).1.Hups.get? 0 =
      some ⟨1, "1.2.3.4", 0, 0, 3, 5, 11/3, 1, 5⟩ ∧
    (⟨1, "1.2.3.4", 0, 0, 3, 5, 11/3, 1, 5⟩ : MTRHup).Avg =
      ((⟨1, "1.2.3.4", 1⟩ : Reply).rtt + sumF (fun i => (rfC3 i).rtt) 1 (3 - 1)) / 3 := by
  have hget : (RunMTR "0.0.0.0" "9.9.9.9" 1 3 5 1 envC3w).1.Hups.get? 0 =
      some ⟨1, "1.2.3.4", 0, 0, 3, 5, 11/3, 1, 5⟩ := by decide
  refine ⟨hget, ?_⟩
  exact c3_avg_running_formula "0.0.0.0" "9.9.9.9" 1 3 5 1 envC3w
    [0, 0, 0, 0, 0, 0, 0, 0, 0, 0, 255, 255, 9, 9, 9, 9]
    [⟨1, "1.2.3.4", 1⟩] 0 ⟨1, "1.2.3.4", 1⟩ rfC3
    (by decide) rfl (by decide) (by decide) (by decide) (by decide)
    (fun i h1 h2 => rfl) _ hget

/-- C6: the Branch B retry body of RunMTR.  With an unknown host, a retry
count below the cap and a reply from the destination directed probe at the
hop TTL: if the responder address already equals the host of some hop in the
scanned table the hop does not adopt it (host stays the unknown sentinel,
comeback and workTimeout unchanged, the retry timeout grows by one second
only while below five seconds, lost increments, retry time advances, the RTT
statistics untouched); if the responder matches no host the hop enters
comeback mode (comeback set, workTimeout set to the current retry timeout,
host set to the responder) and the RTT statistics are updated from the
reply.  The scanned table inside the step also contains the current record
itself, whose host is the sentinel and so never equals the responder. -/
theorem c6_branchB_retry (ping : ℕ → String → ℕ → ℚ → Option Reply)
    (scan : ℕ → List MTRHup) (dstCanon : String) (maxHops : ℕ) (timeout : ℚ)
    (j : ℕ) (s : PingSt) (rp : Reply)
    (hU : s.hup.Host = "???") (hr : s.retryTime < 4)
    (hp : ping j dstCanon s.hup.Count s.tto = some rp) (hip : rp.ip ≠ "???") :
    ((scan j).any (fun v => v.Host == rp.ip) = true →
      (mtrPingStep ping scan dstCanon maxHops timeout j s).hup.Host = "???" ∧
      (mtrPingStep ping scan dstCanon maxHops timeout j s).comeback = s.comeback ∧
      (mtrPingStep ping scan dstCanon maxHops timeout j s).tto =
        (if s.tto < 5 then s.tto + 1 else s.tto) ∧
      (mtrPingStep ping scan dstCanon maxHops timeout j s).hup.LossPoint =
        s.hup.LossPoint + 1 ∧
      (mtrPingStep ping scan dstCanon maxHops timeout j s).retryTime = s.retryTime + 1 ∧
      (mtrPingStep ping scan dstCanon maxHops timeout j s).workTimeout = s.workTimeout ∧
      (mtrPingStep ping scan dstCanon maxHops timeout j s).hup.Last = s.hup.Last ∧
      (mtrPingStep ping scan dstCanon maxHops timeout j s).hup.Avg = s.hup.Avg ∧
      (mtrPingStep ping scan dstCanon maxHops timeout j s).hup.Best = s.hup.Best ∧
      (mtrPingStep ping scan dstCanon maxHops timeout j s).hup.Wrst = s.hup.Wrst) ∧
    ((scan j).any (fun v => v.Host == rp.ip) = false →
      (mtrPingStep ping scan dstCanon maxHops timeout j s).comeback = true ∧
      (mtrPingStep ping scan dstCanon maxHops timeout j s).workTimeout = s.tto ∧
      (mtrPingStep ping scan dstCanon maxHops timeout j s).hup.Host = rp.ip ∧
      (mtrPingStep ping scan dstCanon maxHops timeout j s).hup.Last = rp.rtt ∧
      (mtrPingStep ping scan dstCanon maxHops timeout j s).hup.Avg =
        (s.hup.Avg * s.hup.Snt + rp.rtt) / (s.hup.Snt + 1) ∧
      (mtrPingStep ping scan dstCanon maxHops timeout j s).hup.Best =
        (if s.hup.Best > rp.rtt then rp.rtt else s.hup.Best) ∧
      (mtrPingStep ping scan dstCanon maxHops timeout j s).hup.Wrst =
        (if s.hup.Wrst < rp.rtt then rp.rtt else s.hup.Wrst) ∧
      (mtrPingStep ping scan dstCanon maxHops timeout j s).retryTime = s.retryTime + 1) := by
  have hself : (({ s.hup with Snt := s.hup.Snt + 1 } : MTRHup).Host == rp.ip) = false := by
    show (s.hup.Host == rp.ip) = false
    rw [hU]
    exact beq_eq_false_iff_ne.mpr (fun hcontra => hip hcontra.symm)
  constructor
  · intro hdup
    have hdup2 : (({ s.hup with Snt := s.hup.Snt + 1 } : MTRHup) :: scan j).any
        (fun v => v.Host == rp.ip) = true := by
      rw [List.any_cons, hdup]
      simp
    rw [mtrPingStep_retry_dup hU hr hp hdup2]
    exact ⟨hU, rfl, rfl, rfl, rfl, rfl, rfl, rfl, rfl, rfl⟩
  · intro hnone
    have hdup2 : (({ s.hup with Snt := s.hup.Snt + 1 } : MTRHup) :: scan j).any
        (fun v => v.Host == rp.ip) = false := by
      rw [List.any_cons, hself, hnone]
      rfl
    rw [mtrPingStep_retry_comeback hU hr hp hdup2]
    refine ⟨rfl, rfl, rfl, rfl, ?_, rfl, rfl, rfl⟩
    show (s.hup.Avg * (s.hup.Snt + 1 - 1) + rp.rtt) / (s.hup.Snt + 1) = _
    ring_nf

theorem c6_branchB_retry_witness :
    (mtrPingStep pingC6 scanC6 "9.9.9.9" 30 1 1 sC6).hup.Host = "???" ∧
    (mtrPingStep pingC6 scanC6 "9.9.9.9" 30 1 1 sC6).comeback = false ∧
    (mtrPingStep pingC6 scanC6 "9.9.9.9" 30 1 1 sC6).tto = 2 ∧
    (mtrPingStep pingC6 scanC6 "9.9.9.9" 30 1 1 sC6).hup.LossPoint = 2 ∧
    (mtrPingStep pingC6 scanC6 "9.9.9.9" 30 1 1 sC6).retryTime = 1 := by
  have h := (c6_branchB_retry pingC6 scanC6 "9.9.9.9" 30 1 1 sC6 ⟨0, "10.0.0.1", 3⟩
    rfl (by decide) rfl (by decide)).1 (by decide)
  refine ⟨h.1, h.2.1, ?_, ?_, h.2.2.2.2.1⟩
  · rw [h.2.2.1]
    decide
  · rw [h.2.2.2.1]
    decide

/-- C9 counterexample: the destination string colon colon one is not a valid
IPv4 literal, yet RunMTR does not fail, because the guard of the source is
net.ParseIP returning nil, and net.ParseIP also accepts IPv6 literals. -/
theorem c9_counterexample :
    isIPv4Literal "::1" = false ∧
    (RunMTR "0.0.0.0" "::1" 1 1 1 1 envC9).2 = none := by
  constructor
  · decide
  · decide

/-- C9 (amended): every run operation returns the empty report and the fixed
error Unknown dest IP independently of the environment (so without starting
the trace) exactly when net.ParseIP rejects the destination string, that is,
when it is neither a valid IPv4 nor a valid IPv6 literal. -/
theorem c9_unknown_dest_guard (src dst : String) (maxHops pc mu : ℕ)
    (timeout : ℚ) :
    ((∀ env, RunMTR src dst maxHops pc mu timeout env =
        (⟨0, "", "", 0, []⟩, some "Unknown dest IP")) ↔ parseIP dst = none) ∧
    ((∀ env, RunMTRWithNoRetryPing src dst maxHops pc mu timeout env =
        (⟨0, "", "", 0, []⟩, some "Unknown dest IP")) ↔ parseIP dst = none) ∧
    ((∀ env, RunMTRWithCocurrentPing src dst maxHops pc mu timeout env =
        (⟨0, "", "", 0, []⟩, some "Unknown dest IP")) ↔ parseIP dst = none) := by
  refine ⟨⟨?_, ?_⟩, ⟨?_, ?_⟩, ⟨?_, ?_⟩⟩
  · intro hall
    cases hd : parseIP dst with
    | none => rfl
    | some dstIP =>
      exfalso
      have h := hall ⟨Except.ok [], 0, fun _ _ _ _ _ => none, fun _ _ => []⟩
      rw [RunMTR_ok hd rfl] at h
      exact Option.noConfusion (congrArg Prod.snd h)
  · intro hd env
    exact RunMTR_parse_none hd
  · intro hall
    cases hd : parseIP dst with
    | none => rfl
    | some dstIP =>
      exfalso
      have h := hall ⟨Except.ok [], 0, fun _ _ _ _ _ => none, fun _ _ => []⟩
      rw [RunMTRWithNoRetryPing_ok hd rfl] at h
      exact Option.noConfusion (congrArg Prod.snd h)
  · intro hd env
    exact RunMTRWithNoRetryPing_parse_none hd
  · intro hall
    cases hd : parseIP dst with
    | none => rfl
    | some dstIP =>
      exfalso
      have h := hall ⟨Except.ok [], 0, fun _ _ _ _ _ => none, fun _ _ => []⟩
      rw [RunMTRWithCocurrentPing_ok hd rfl] at h
      exact Option.noConfusion (congrArg Prod.snd h)
  · intro hd env
    exact RunMTRWithCocurrentPing_parse_none hd

theorem c9_unknown_dest_guard_witness :
    RunMTR "0.0.0.0" "notanip" 1 1 1 1 envC9b =
      (⟨0, "", "", 0, []⟩, some "Unknown dest IP") :=
  (c9_unknown_dest_guard "0.0.0.0" "notanip" 1 1 1 1).1.mpr (by decide) envC9b
